import Mathlib

/-!
# mergecap: command-line front end of the capture-file merger

A shallow embedding of `mergecap.c` (Wireshark 4.4.6 with a file-driven
harness around `main`).  The functions of `mergecap.c` are translated to
Lean functions with the source's names.  Everything `mergecap.c` calls in
wiretap and wsutil lives outside this repository, so those functions are
fields of the structure `Wiretap`, and the successive results of
`ws_getopt_long` are part of the input `CommandLine`.

Calls with an effect outside the process (messages, the merge itself,
cleanup) are recorded in order in a list of `Call`s.

Besides `original_main` the file embeds the progress callback
`merge_callback` and the harness function `parse_command_line_from_file`.
The scheduler behind `merge_files` is not part of `mergecap.c`; it is
modelled from the specification, and its definitions say so.
-/

namespace Mergecap

/-! ## Types of wiretap used by `mergecap.c` -/

/-- Enumeration `wtap_compression_type` of `wiretap/wtap.h`. -/
inductive wtap_compression_type where
  | WTAP_UNCOMPRESSED
  | WTAP_GZIP_COMPRESSED
  | WTAP_ZSTD_COMPRESSED
  | WTAP_LZ4_COMPRESSED
  | WTAP_UNKNOWN_COMPRESSION
  deriving DecidableEq, Repr

/-- Enumeration `idb_merge_mode` of `wiretap/merge.h`. -/
inductive idb_merge_mode where
  | IDB_MERGE_MODE_NONE
  | IDB_MERGE_MODE_ALL_SAME
  | IDB_MERGE_MODE_ANY_SAME
  | IDB_MERGE_MODE_MAX
  deriving DecidableEq, Repr

/-- Enumeration `block_support_t` of `wiretap/wtap.h`. -/
inductive block_support_t where
  | BLOCK_NOT_SUPPORTED
  | ONE_BLOCK_SUPPORTED
  | MULTIPLE_BLOCKS_SUPPORTED
  deriving DecidableEq, Repr

/-- The block types of `wiretap/wtap_opttypes.h` that `mergecap.c` can name;
only `WTAP_BLOCK_IF_ID_AND_INFO` is used. -/
inductive wtap_block_type_t where
  | WTAP_BLOCK_SECTION
  | WTAP_BLOCK_IF_ID_AND_INFO
  | WTAP_BLOCK_NAME_RESOLUTION
  | WTAP_BLOCK_IF_STATISTICS
  deriving DecidableEq, Repr

/-- The value `-1` that `wiretap/wtap.h` gives `WTAP_FILE_TYPE_SUBTYPE_UNKNOWN`. -/
def WTAP_FILE_TYPE_SUBTYPE_UNKNOWN : Int := -1

/-- The functions a `merge_progress_callback_t` of `mergecap.c` can point to. -/
inductive callback_func_t where
  | merge_callback
  deriving DecidableEq, Repr

/-- Structure `merge_progress_callback_t`: the function pointer and its
`data` pointer (`none` is `NULL`). -/
structure merge_progress_callback_t where
  callback_func : callback_func_t
  data : Option Nat
  deriving DecidableEq, Repr

/-- The arguments `merge_files` and `merge_files_to_stdout` have in common, in
the order of the call: `in_filenames` is the array `&argv[ws_optind]` up to
the end of `argv`, `cb` is `none` for a `NULL` callback.  The constant
`get_appname_and_version()` that both calls pass is left out. -/
structure merge_args where
  file_type : Int
  in_filenames : List String
  in_file_count : Int
  do_append : Bool
  mode : idb_merge_mode
  snaplen : Nat
  cb : Option merge_progress_callback_t
  compression_type : wtap_compression_type
  deriving DecidableEq, Repr

/-- The library functions `original_main` calls and whose result it uses.
`get_nonzero_uint32` is `none` where the C function reports the error and
calls `exit(1)` itself. -/
structure Wiretap where
  wtap_name_to_file_type_subtype : String → Int
  wtap_pcapng_file_type_subtype : Int
  merge_string_to_idb_merge_mode : String → idb_merge_mode
  get_nonzero_uint32 : String → Option Nat
  wtap_name_to_compression_type : String → wtap_compression_type
  wtap_extension_to_compression_type : String → wtap_compression_type
  wtap_can_write_compression_type : wtap_compression_type → Bool
  wtap_dump_can_compress : Int → Bool
  wtap_file_type_subtype_supports_block : Int → wtap_block_type_t → block_support_t
  merge_files : String → merge_args → Bool
  merge_files_to_stdout : merge_args → Bool

/-! ## The command line as `ws_getopt_long` presents it -/

/-- The values `ws_getopt_long` can return for the option string
`"aF:hI:s:vVw:"` and the long options `help`, `version`, `compress`, one
constructor per `case` label of the `switch` in `original_main`
(`LONGOPT_COMPRESS` is the value of `--compress`, `bad` is `'?'`), and
`other` for a value with no `case`. -/
inductive opt_t where
  | a
  | F
  | h
  | I
  | s
  | V
  | v
  | w
  | LONGOPT_COMPRESS
  | bad
  | other (code : Int)
  deriving DecidableEq, Repr

/-- One return of `ws_getopt_long`: the returned value with the `ws_optarg`
and `ws_optopt` it leaves behind. -/
structure getopt_result where
  opt : opt_t
  ws_optarg : String
  ws_optopt : opt_t
  deriving DecidableEq, Repr

/-- A command line as `original_main` sees it: `argv` as `ws_getopt_long`
leaves it (`argc` is its length), the returns of `ws_getopt_long` before it
returns `-1`, in order, and the `ws_optind` it ends with. -/
structure CommandLine where
  argv : List String
  getopt : List getopt_result
  ws_optind : Nat
  deriving DecidableEq, Repr

/-! ## Observable calls and outcome -/

/-- The calls of `original_main` that are recorded, in program order.  A
message of `cmdarg_err` is recorded with `ws_optarg` filled in, and as its
format string where the argument comes from a wiretap description. -/
inductive Call where
  | wtap_init
  | cmdarg_err (msg : String)
  | cmdarg_err_cont (msg : String)
  | list_capture_types
  | list_idb_merge_modes
  | list_output_compression_types
  | show_help_header
  | print_usage (to_stdout : Bool)
  | show_version
  | merge_files (out_filename : String) (args : merge_args)
  | merge_files_to_stdout (args : merge_args)
  | wtap_cleanup
  | free_progdirs
  deriving DecidableEq, Repr

/-- How the process leaves `original_main`: by `return status`, or by a call
of `exit(status)` inside a library function. -/
inductive Exit where
  | returned (status : Int)
  | exited (status : Int)
  deriving DecidableEq, Repr

/-- Result of a run: the way it ended and the recorded calls. -/
structure Outcome where
  exit : Exit
  calls : List Call
  deriving DecidableEq, Repr

/-- The local variables of `original_main` that the option loop assigns. -/
structure Vars where
  do_append : Bool
  verbose : Bool
  snaplen : Nat
  file_type : Int
  out_filename : Option String
  status : Bool
  mode : idb_merge_mode
  compression_type : wtap_compression_type
  deriving DecidableEq, Repr

/-- The initialisers of the local variables (lines 226-234). -/
def Vars.init : Vars :=
  { do_append := false
    verbose := false
    snaplen := 0
    file_type := WTAP_FILE_TYPE_SUBTYPE_UNKNOWN
    out_filename := none
    status := true
    mode := idb_merge_mode.IDB_MERGE_MODE_MAX
    compression_type := wtap_compression_type.WTAP_UNKNOWN_COMPRESSION }

/-- Where control goes after one pass through the `switch`: back to the loop
condition, to the label `clean_exit`, or out of the process. -/
inductive Flow where
  | next
  | clean_exit
  | exit (status : Int)
  deriving DecidableEq, Repr

/-- The `switch (opt)` of the option loop (lines 278-354) for one return of
`ws_getopt_long`: the flow, the variables and the calls made. -/
def switch_body (env : Wiretap) (e : getopt_result) (v : Vars) : Flow × Vars × List Call :=
  match e.opt with
  | opt_t.a => (Flow.next, { v with do_append := !v.do_append }, [])
  | opt_t.F =>
    let file_type := env.wtap_name_to_file_type_subtype e.ws_optarg
    if file_type < 0 then
      (Flow.clean_exit, { v with file_type := file_type, status := false },
        [Call.cmdarg_err ("\"" ++ e.ws_optarg ++ "\" isn't a valid capture file type"),
         Call.list_capture_types])
    else (Flow.next, { v with file_type := file_type }, [])
  | opt_t.h => (Flow.clean_exit, v, [Call.show_help_header, Call.print_usage true])
  | opt_t.I =>
    let mode := env.merge_string_to_idb_merge_mode e.ws_optarg
    if mode = idb_merge_mode.IDB_MERGE_MODE_MAX then
      (Flow.clean_exit, { v with mode := mode, status := false },
        [Call.cmdarg_err ("\"" ++ e.ws_optarg ++ "\" isn't a valid IDB merge mode"),
         Call.list_idb_merge_modes])
    else (Flow.next, { v with mode := mode }, [])
  | opt_t.s =>
    match env.get_nonzero_uint32 e.ws_optarg with
    | some snaplen => (Flow.next, { v with snaplen := snaplen }, [])
    | none => (Flow.exit 1, v, [])
  | opt_t.V => (Flow.next, { v with verbose := true }, [])
  | opt_t.v => (Flow.clean_exit, v, [Call.show_version])
  | opt_t.w => (Flow.next, { v with out_filename := some e.ws_optarg }, [])
  | opt_t.LONGOPT_COMPRESS =>
    let compression_type := env.wtap_name_to_compression_type e.ws_optarg
    if compression_type = wtap_compression_type.WTAP_UNKNOWN_COMPRESSION then
      (Flow.clean_exit, { v with compression_type := compression_type },
        [Call.cmdarg_err ("\"" ++ e.ws_optarg ++ "\" isn't a valid output compression mode"),
         Call.list_output_compression_types])
    else (Flow.next, { v with compression_type := compression_type }, [])
  | opt_t.bad =>
    (Flow.clean_exit, { v with status := false },
      [match e.ws_optopt with
       | opt_t.F => Call.list_capture_types
       | opt_t.I => Call.list_idb_merge_modes
       | opt_t.LONGOPT_COMPRESS => Call.list_output_compression_types
       | _ => Call.print_usage false])
  | opt_t.other _ => (Flow.next, v, [])

/-- The `while` loop over the returns of `ws_getopt_long` (lines 276-355):
it runs the `switch` for each return in turn and stops at the first one that
leaves the loop. -/
def option_loop (env : Wiretap) : List getopt_result → Vars → Flow × Vars × List Call
  | [], v => (Flow.next, v, [])
  | e :: es, v =>
    match switch_body env e v with
    | (Flow.next, v1, t1) =>
      match option_loop env es v1 with
      | (f, v2, t2) => (f, v2, t1 ++ t2)
    | r => r

/-- Function `strrchr` of the C library on a string without NUL: the tail of
`s` that starts at the last occurrence of `c`, `none` for a null pointer. -/
def strrchr : List Char → Char → Option (List Char)
  | [], _ => none
  | x :: xs, c =>
    match strrchr xs c with
    | some r => some r
    | none => if x = c then some (x :: xs) else none

/-- The label `clean_exit` (lines 439-443). -/
def clean_exit (status : Bool) (calls : List Call) : Outcome :=
  { exit := Exit.returned (if status then 0 else 2)
    calls := calls ++ [Call.wtap_cleanup, Call.free_progdirs] }

/-- The compression type after lines 379-391: an explicit type stands,
otherwise the extension after the last `.` of the output name decides, and
an unknown result becomes `WTAP_UNCOMPRESSED`. -/
def resolve_compression_type (env : Wiretap) (compression_type : wtap_compression_type)
    (out_filename : String) : wtap_compression_type :=
  let compression_type :=
    if compression_type = wtap_compression_type.WTAP_UNKNOWN_COMPRESSION then
      match strrchr out_filename.data '.' with
      | some sfx => env.wtap_extension_to_compression_type (String.mk (sfx.drop 1))
      | none => compression_type
    else compression_type
  if compression_type = wtap_compression_type.WTAP_UNKNOWN_COMPRESSION then
    wtap_compression_type.WTAP_UNCOMPRESSED
  else compression_type

/-- The part of `original_main` after the option loop has ended with `-1`
(lines 357-443). -/
def after_options (env : Wiretap) (cl : CommandLine) (v : Vars) (calls : List Call) : Outcome :=
  let file_type :=
    if v.file_type = WTAP_FILE_TYPE_SUBTYPE_UNKNOWN then env.wtap_pcapng_file_type_subtype
    else v.file_type
  let cb : merge_progress_callback_t :=
    { callback_func := callback_func_t.merge_callback, data := none }
  let in_file_count : Int := (cl.argv.length : Int) - (cl.ws_optind : Int)
  match v.out_filename with
  | none =>
    clean_exit false
      (calls ++ [Call.cmdarg_err "an output filename must be set with -w",
                 Call.cmdarg_err_cont "run with -h for help"])
  | some out_filename =>
    if in_file_count < 1 then
      { exit := Exit.returned 1
        calls := calls ++ [Call.cmdarg_err "No input files were specified"] }
    else
      let compression_type := resolve_compression_type env v.compression_type out_filename
      if !env.wtap_can_write_compression_type compression_type then
        clean_exit false (calls ++ [Call.cmdarg_err "Output files can't be written as %s"])
      else if compression_type ≠ wtap_compression_type.WTAP_UNCOMPRESSED
          ∧ !env.wtap_dump_can_compress file_type then
        clean_exit false
          (calls ++ [Call.cmdarg_err
            "The file format %s can't be written to output compressed format"])
      else if v.mode ≠ idb_merge_mode.IDB_MERGE_MODE_MAX
          ∧ env.wtap_file_type_subtype_supports_block file_type
              wtap_block_type_t.WTAP_BLOCK_IF_ID_AND_INFO
            = block_support_t.BLOCK_NOT_SUPPORTED then
        clean_exit false
          (calls ++ [Call.cmdarg_err
            "The IDB merge mode can only be used with an output format that identifies interfaces"])
      else
        let mode :=
          if v.mode = idb_merge_mode.IDB_MERGE_MODE_MAX then
            idb_merge_mode.IDB_MERGE_MODE_ALL_SAME
          else v.mode
        let args : merge_args :=
          { file_type := file_type
            in_filenames := cl.argv.drop cl.ws_optind
            in_file_count := in_file_count
            do_append := v.do_append
            mode := mode
            snaplen := v.snaplen
            cb := if v.verbose then some cb else none
            compression_type := compression_type }
        if out_filename = "-" then
          clean_exit (env.merge_files_to_stdout args)
            (calls ++ [Call.merge_files_to_stdout args])
        else
          clean_exit (env.merge_files out_filename args)
            (calls ++ [Call.merge_files out_filename args])

/-- Function `original_main` (lines 203-443) from `wtap_init(true)` on. -/
def original_main (env : Wiretap) (cl : CommandLine) : Outcome :=
  match option_loop env cl.getopt Vars.init with
  | (Flow.next, v, t) => after_options env cl v (Call.wtap_init :: t)
  | (Flow.clean_exit, v, t) => clean_exit v.status (Call.wtap_init :: t)
  | (Flow.exit status, _, t) => { exit := Exit.exited status, calls := Call.wtap_init :: t }

/-! ## A concrete wiretap for worked examples -/

/-- A small wiretap used to evaluate `original_main` on concrete command
lines: file types `pcap` (1, no interface blocks) and `pcapng` (2), the IDB
merge modes `none`, `all` and `any`, the compression types `gzip`, `zstd`
(recognised but not writable), `lz4` and `none`, snapshot lengths `1` and
`64`.  Every merge succeeds. -/
def demoWiretap : Wiretap :=
  { wtap_name_to_file_type_subtype := fun n =>
      if n = "pcap" then 1 else if n = "pcapng" then 2 else -1
    wtap_pcapng_file_type_subtype := 2
    merge_string_to_idb_merge_mode := fun n =>
      if n = "none" then idb_merge_mode.IDB_MERGE_MODE_NONE
      else if n = "all" then idb_merge_mode.IDB_MERGE_MODE_ALL_SAME
      else if n = "any" then idb_merge_mode.IDB_MERGE_MODE_ANY_SAME
      else idb_merge_mode.IDB_MERGE_MODE_MAX
    get_nonzero_uint32 := fun n =>
      if n = "1" then some 1 else if n = "64" then some 64 else none
    wtap_name_to_compression_type := fun n =>
      if n = "gzip" then wtap_compression_type.WTAP_GZIP_COMPRESSED
      else if n = "zstd" then wtap_compression_type.WTAP_ZSTD_COMPRESSED
      else if n = "lz4" then wtap_compression_type.WTAP_LZ4_COMPRESSED
      else if n = "none" then wtap_compression_type.WTAP_UNCOMPRESSED
      else wtap_compression_type.WTAP_UNKNOWN_COMPRESSION
    wtap_extension_to_compression_type := fun n =>
      if n = "gz" then wtap_compression_type.WTAP_GZIP_COMPRESSED
      else if n = "zst" then wtap_compression_type.WTAP_ZSTD_COMPRESSED
      else if n = "lz4" then wtap_compression_type.WTAP_LZ4_COMPRESSED
      else wtap_compression_type.WTAP_UNKNOWN_COMPRESSION
    wtap_can_write_compression_type := fun c =>
      decide (c = wtap_compression_type.WTAP_UNCOMPRESSED
        ∨ c = wtap_compression_type.WTAP_GZIP_COMPRESSED
        ∨ c = wtap_compression_type.WTAP_LZ4_COMPRESSED)
    wtap_dump_can_compress := fun ft => decide (ft = 1 ∨ ft = 2)
    wtap_file_type_subtype_supports_block := fun ft b =>
      if ft = 2 ∧ b = wtap_block_type_t.WTAP_BLOCK_IF_ID_AND_INFO then
        block_support_t.MULTIPLE_BLOCKS_SUPPORTED
      else block_support_t.BLOCK_NOT_SUPPORTED
    merge_files := fun _ _ => true
    merge_files_to_stdout := fun _ => true }

/-- Shorthand for a return of `ws_getopt_long` for an option that was
recognised (`ws_optopt` is then not looked at). -/
def got (o : opt_t) (arg : String) : getopt_result :=
  { opt := o, ws_optarg := arg, ws_optopt := opt_t.other 0 }

/-! ## Vocabulary of the claims -/

/-- The argument of the last occurrence of option `o` on the command line,
`none` when the option does not occur. -/
def last_optarg (o : opt_t) (es : List getopt_result) : Option String :=
  (es.reverse.find? (fun e => decide (e.opt = o))).map (fun e => e.ws_optarg)

/-- Whether option `o` occurs on the command line. -/
def opt_given (o : opt_t) (es : List getopt_result) : Bool :=
  es.any (fun e => decide (e.opt = o))

/-- How often option `o` occurs on the command line. -/
def opt_count (o : opt_t) (es : List getopt_result) : Nat :=
  es.countP (fun e => decide (e.opt = o))

/-- Whether a recorded call is one of the two merge calls. -/
def Call.is_merge : Call → Bool
  | Call.merge_files _ _ => true
  | Call.merge_files_to_stdout _ => true
  | _ => false

/-- The common arguments of a recorded merge call. -/
def Call.merge_args? : Call → Option merge_args
  | Call.merge_files _ args => some args
  | Call.merge_files_to_stdout args => some args
  | _ => none

/-- Whether the run called `merge_files` or `merge_files_to_stdout`. -/
def merge_invoked (o : Outcome) : Bool :=
  o.calls.any Call.is_merge

/-- The text after the last `.` of a file name, `none` for a name without
a `.`. -/
def text_after_last_dot (name : String) : Option String :=
  if '.' ∈ name.data then
    some (String.mk (name.data.reverse.takeWhile (fun c => decide (c ≠ '.'))).reverse)
  else none

/-- The compression type as the usage text and the comment at lines 380-382
describe it: the type named with `--compress`; without that option the type
of the extension of the output name, when the name has one and it is known;
otherwise no compression. -/
def described_compression_type (env : Wiretap) (es : List getopt_result) :
    wtap_compression_type :=
  match last_optarg opt_t.LONGOPT_COMPRESS es with
  | some name => env.wtap_name_to_compression_type name
  | none =>
    match (last_optarg opt_t.w es).bind text_after_last_dot with
    | some ext =>
      if env.wtap_extension_to_compression_type ext
          = wtap_compression_type.WTAP_UNKNOWN_COMPRESSION then
        wtap_compression_type.WTAP_UNCOMPRESSED
      else env.wtap_extension_to_compression_type ext
    | none => wtap_compression_type.WTAP_UNCOMPRESSED

/-- The output file type a command line asks for: the one named by the last
`-F`, pcapng without `-F`. -/
def chosen_file_type (env : Wiretap) (es : List getopt_result) : Int :=
  match last_optarg opt_t.F es with
  | some name => env.wtap_name_to_file_type_subtype name
  | none => env.wtap_pcapng_file_type_subtype

/-- The IDB merge mode a command line asks for: the one named by the last
`-I`, `IDB_MERGE_MODE_ALL_SAME` without `-I`. -/
def chosen_mode (env : Wiretap) (es : List getopt_result) : idb_merge_mode :=
  match last_optarg opt_t.I es with
  | some name => env.merge_string_to_idb_merge_mode name
  | none => idb_merge_mode.IDB_MERGE_MODE_ALL_SAME

/-- The snapshot length a command line asks for: the value of the last `-s`,
`0` without `-s`. -/
def chosen_snaplen (env : Wiretap) (es : List getopt_result) : Nat :=
  match last_optarg opt_t.s es with
  | some text => (env.get_nonzero_uint32 text).getD 0
  | none => 0

/-- Option processing runs to completion: the loop of `original_main` ends
because `ws_getopt_long` returned `-1`, not by `goto clean_exit` or `exit`. -/
def options_completed (env : Wiretap) (cl : CommandLine) : Prop :=
  (option_loop env cl.getopt Vars.init).1 = Flow.next

instance (env : Wiretap) (cl : CommandLine) : Decidable (options_completed env cl) := by
  unfold options_completed; infer_instance

/-- Number of input files left after the options, `argc - ws_optind`. -/
def input_count (cl : CommandLine) : Int :=
  (cl.argv.length : Int) - (cl.ws_optind : Int)

/-- The arguments of the merge call read off the command line: each one as
the options determine it. -/
def merge_args_of (env : Wiretap) (cl : CommandLine) : merge_args :=
  { file_type := chosen_file_type env cl.getopt
    in_filenames := cl.argv.drop cl.ws_optind
    in_file_count := input_count cl
    do_append := decide (opt_count opt_t.a cl.getopt % 2 = 1)
    mode := chosen_mode env cl.getopt
    snaplen := chosen_snaplen env cl.getopt
    cb := if opt_given opt_t.V cl.getopt then
        some { callback_func := callback_func_t.merge_callback, data := none }
      else none
    compression_type := described_compression_type env cl.getopt }

/-- The checks of lines 393-416 read off the command line: the compression
type can be written, the file type can be compressed when compression is
asked for, and the file type has interface blocks when `-I` is given. -/
def checks_pass (env : Wiretap) (cl : CommandLine) : Prop :=
  env.wtap_can_write_compression_type (described_compression_type env cl.getopt) = true
  ∧ (described_compression_type env cl.getopt = wtap_compression_type.WTAP_UNCOMPRESSED
      ∨ env.wtap_dump_can_compress (chosen_file_type env cl.getopt) = true)
  ∧ (opt_given opt_t.I cl.getopt = false
      ∨ env.wtap_file_type_subtype_supports_block (chosen_file_type env cl.getopt)
          wtap_block_type_t.WTAP_BLOCK_IF_ID_AND_INFO ≠ block_support_t.BLOCK_NOT_SUPPORTED)

instance (env : Wiretap) (cl : CommandLine) : Decidable (checks_pass env cl) := by
  unfold checks_pass; infer_instance

/-- The merge call a command line with output name `out` leads to: to the
standard output for the name `-`, to the named file otherwise. -/
def merge_call_of (env : Wiretap) (cl : CommandLine) (out : String) : Call :=
  if out = "-" then Call.merge_files_to_stdout (merge_args_of env cl)
  else Call.merge_files out (merge_args_of env cl)

/-- What the merge function called for output name `out` returns. -/
def merge_result_of (env : Wiretap) (cl : CommandLine) (out : String) : Bool :=
  if out = "-" then env.merge_files_to_stdout (merge_args_of env cl)
  else env.merge_files out (merge_args_of env cl)

/-- What the merge function of a recorded merge call returned. -/
def Call.merge_result (env : Wiretap) : Call → Option Bool
  | Call.merge_files out args => some (env.merge_files out args)
  | Call.merge_files_to_stdout args => some (env.merge_files_to_stdout args)
  | _ => none

/-! ## Command lines of the worked examples -/

/-- Command line `mergecap -w out.gz a.pcap b.pcap`. -/
def cl_gz : CommandLine :=
  { argv := ["mergecap", "-w", "out.gz", "a.pcap", "b.pcap"]
    getopt := [got opt_t.w "out.gz"]
    ws_optind := 3 }

/-- Command line `mergecap --compress zstd -w out.pcapng a.pcap`. -/
def cl_zstd : CommandLine :=
  { argv := ["mergecap", "--compress", "zstd", "-w", "out.pcapng", "a.pcap"]
    getopt := [got opt_t.LONGOPT_COMPRESS "zstd", got opt_t.w "out.pcapng"]
    ws_optind := 5 }

/-- Command line `mergecap -F pcap -I none -w out.pcap a.pcap`. -/
def cl_idb_pcap : CommandLine :=
  { argv := ["mergecap", "-F", "pcap", "-I", "none", "-w", "out.pcap", "a.pcap"]
    getopt := [got opt_t.F "pcap", got opt_t.I "none", got opt_t.w "out.pcap"]
    ws_optind := 7 }

/-- Command line `mergecap -F pcap -I none -h`. -/
def cl_idb_help : CommandLine :=
  { argv := ["mergecap", "-F", "pcap", "-I", "none", "-h"]
    getopt := [got opt_t.F "pcap", got opt_t.I "none", got opt_t.h ""]
    ws_optind := 6 }

/-- Command line `mergecap -V -s 64 -w - a.pcap b.pcap`. -/
def cl_stdout : CommandLine :=
  { argv := ["mergecap", "-V", "-s", "64", "-w", "-", "a.pcap", "b.pcap"]
    getopt := [got opt_t.V "", got opt_t.s "64", got opt_t.w "-"]
    ws_optind := 6 }

/-- Command line `mergecap -a -a -w out.pcapng a.pcap b.pcap`. -/
def cl_aa : CommandLine :=
  { argv := ["mergecap", "-a", "-a", "-w", "out.pcapng", "a.pcap", "b.pcap"]
    getopt := [got opt_t.a "", got opt_t.a "", got opt_t.w "out.pcapng"]
    ws_optind := 5 }

/-- Command line `mergecap -a -w out.pcapng a.pcap b.pcap`. -/
def cl_a : CommandLine :=
  { argv := ["mergecap", "-a", "-w", "out.pcapng", "a.pcap", "b.pcap"]
    getopt := [got opt_t.a "", got opt_t.w "out.pcapng"]
    ws_optind := 4 }

/-- Command line `mergecap -F pcap -w out.pcap a.pcap`. -/
def cl_pcap : CommandLine :=
  { argv := ["mergecap", "-F", "pcap", "-w", "out.pcap", "a.pcap"]
    getopt := [got opt_t.F "pcap", got opt_t.w "out.pcap"]
    ws_optind := 5 }

/-- Command line `mergecap -h`. -/
def cl_help : CommandLine :=
  { argv := ["mergecap", "-h"]
    getopt := [got opt_t.h ""]
    ws_optind := 2 }

/-- Command line `mergecap a.pcap b.pcap`, without `-w`. -/
def cl_no_w : CommandLine :=
  { argv := ["mergecap", "a.pcap", "b.pcap"]
    getopt := []
    ws_optind := 1 }

/-- The wiretap of the worked examples with merges that fail. -/
def failingWiretap : Wiretap :=
  { demoWiretap with
    merge_files := fun _ _ => false
    merge_files_to_stdout := fun _ => false }

/-- Command line `mergecap -w out.pcapng`, without input files. -/
def cl_no_input : CommandLine :=
  { argv := ["mergecap", "-w", "out.pcapng"]
    getopt := [got opt_t.w "out.pcapng"]
    ws_optind := 3 }

/-- Command line `mergecap -s 64 -F pcap -w out.pcap a.pcap b.pcap`. -/
def cl_snap : CommandLine :=
  { argv := ["mergecap", "-s", "64", "-F", "pcap", "-w", "out.pcap", "a.pcap", "b.pcap"]
    getopt := [got opt_t.s "64", got opt_t.F "pcap", got opt_t.w "out.pcap"]
    ws_optind := 7 }

/-- An option the loop accepts and goes on from: not `-h`, `-v` or an
option `ws_getopt_long` rejected, and for `-F`, `-I`, `-s` and `--compress`
an argument the library recognises. -/
def option_accepted (env : Wiretap) (e : getopt_result) : Bool :=
  match e.opt with
  | opt_t.h => false
  | opt_t.v => false
  | opt_t.bad => false
  | opt_t.F => decide (0 ≤ env.wtap_name_to_file_type_subtype e.ws_optarg)
  | opt_t.I =>
    decide (env.merge_string_to_idb_merge_mode e.ws_optarg ≠ idb_merge_mode.IDB_MERGE_MODE_MAX)
  | opt_t.s => (env.get_nonzero_uint32 e.ws_optarg).isSome
  | opt_t.LONGOPT_COMPRESS =>
    decide (env.wtap_name_to_compression_type e.ws_optarg
      ≠ wtap_compression_type.WTAP_UNKNOWN_COMPRESSION)
  | _ => true

/-! ## The progress callback `merge_callback` -/

/-- Enumeration `merge_event` of `wiretap/merge.h`; `other` is a value of the
C type that is none of the five events. -/
inductive merge_event where
  | MERGE_EVENT_INPUT_FILES_OPENED
  | MERGE_EVENT_FRAME_TYPE_SELECTED
  | MERGE_EVENT_READY_TO_MERGE
  | MERGE_EVENT_RECORD_WAS_READ
  | MERGE_EVENT_DONE
  | other (code : Int)
  deriving DecidableEq, Repr

/-- An entry of `in_files[]` as `merge_callback` reads it: the file name, and
what `wtap_file_encap` and `wtap_file_type_subtype` return for its `wth`. -/
structure merge_in_file_t where
  filename : String
  wtap_file_encap : Int
  wtap_file_type_subtype : Int
  deriving DecidableEq, Repr

/-- The value `-1` that `wiretap/wtap.h` gives `WTAP_ENCAP_PER_PACKET`. -/
def WTAP_ENCAP_PER_PACKET : Int := -1

/-- The messages `merge_callback` writes to the standard error.
`multiple_encaps` stands for the four lines that start with "multiple frame
encapsulation types detected"; it holds the name and type of `in_files[0]`
and of `in_files[i]`, and the index `i` itself. -/
inductive Diag where
  | input_type (filename : String) (file_type_subtype : Int)
  | multiple_encaps (i : Nat) (filename0 : String) (first_frame_type : Int)
      (filename_i : String) (this_frame_type : Int)
  | selected_frame_type (num : Int)
  | ready_to_merge
  | record_was_read (num : Int)
  | merging_complete
  deriving DecidableEq, Repr

/-- The loop `for (i = 1; i < in_file_count; i++)` of lines 163-178, from
index `i` on: `rest` holds `in_files[i]`, `in_files[i+1]`, ...  It stops with
the message at the first entry whose type differs from that of `in_files[0]`. -/
def frame_type_loop (f0 : merge_in_file_t) : List merge_in_file_t → Nat → List Diag
  | [], _ => []
  | f :: fs, i =>
    if f0.wtap_file_encap ≠ f.wtap_file_encap then
      [Diag.multiple_encaps i f0.filename f0.wtap_file_encap f.filename f.wtap_file_encap]
    else frame_type_loop f0 fs (i + 1)

/-- Function `merge_callback` (lines 138-201): the messages written and the
returned value.  `in_files` holds the `in_file_count` entries of the array;
the result is `none` where the function reads `in_files[0]` of an array
without entries. -/
def merge_callback (event : merge_event) (num : Int) (in_files : List merge_in_file_t) :
    Option (List Diag × Bool) :=
  match event with
  | merge_event.MERGE_EVENT_INPUT_FILES_OPENED =>
    some (in_files.map (fun f => Diag.input_type f.filename f.wtap_file_type_subtype), false)
  | merge_event.MERGE_EVENT_FRAME_TYPE_SELECTED =>
    if num = WTAP_ENCAP_PER_PACKET then
      match in_files with
      | [] => none
      | f0 :: rest =>
        some (frame_type_loop f0 rest 1 ++ [Diag.selected_frame_type num], false)
    else some ([Diag.selected_frame_type num], false)
  | merge_event.MERGE_EVENT_READY_TO_MERGE => some ([Diag.ready_to_merge], false)
  | merge_event.MERGE_EVENT_RECORD_WAS_READ => some ([Diag.record_was_read num], false)
  | merge_event.MERGE_EVENT_DONE => some ([Diag.merging_complete], false)
  | merge_event.other _ => some ([], false)

/-- The function a `callback_func` pointer of `mergecap.c` stands for. -/
def callback_func_t.call : callback_func_t → merge_event → Int → List merge_in_file_t →
    Option (List Diag × Bool)
  | callback_func_t.merge_callback => Mergecap.merge_callback

/-- Whether a message is the one about multiple frame encapsulation types. -/
def Diag.is_multiple_encaps : Diag → Bool
  | Diag.multiple_encaps _ _ _ _ _ => true
  | _ => false

/-- The encapsulation type of input `i`, `none` past the end of the inputs. -/
def encap_of (in_files : List merge_in_file_t) (i : Nat) : Option Int :=
  (in_files[i]?).map (fun f => f.wtap_file_encap)

/-- Inputs `a` and `b`, with `a` before `b`, have differing encapsulation
types. -/
def differing_pair (in_files : List merge_in_file_t) (a b : Nat) : Prop :=
  a < b ∧ b < in_files.length ∧ encap_of in_files a ≠ encap_of in_files b

/-- Three inputs, the third with another encapsulation type than the first
two. -/
def demo_in_files : List merge_in_file_t :=
  [ { filename := "a.pcap", wtap_file_encap := 1, wtap_file_type_subtype := 1 },
    { filename := "b.pcap", wtap_file_encap := 1, wtap_file_type_subtype := 1 },
    { filename := "c.pcap", wtap_file_encap := 7, wtap_file_type_subtype := 2 } ]

/-! ## The harness function `parse_command_line_from_file` -/

/-- The terminating byte of a C string. -/
def NUL : Char := Char.ofNat 0

/-- The test `*p == ' ' || *p == '\t'` of the two scanning loops. -/
def is_blank (c : Char) : Bool := c = ' ' || c = '\t'

/-- The loop `while (*p == ' ' || *p == '\t') p++` on the rest of the C
string at `p`. -/
def skip_blanks (p : List Char) : List Char := p.dropWhile is_blank

/-- The loop `while (*p && *p != ' ' && *p != '\t') p++`. -/
def skip_token (p : List Char) : List Char := p.dropWhile (fun c => !is_blank c)

/-- The bytes from `token_start` up to `token_end`, which the loop
`skip_token` passes over. -/
def token_at (p : List Char) : List Char := p.takeWhile (fun c => !is_blank c)

/-- The counting loop of lines 519-530 from `p` on, with the current value
of `arg_count`. -/
def count_args (p : List Char) (arg_count : Nat) : Nat :=
  if p = [] then arg_count
  else if h : skip_blanks p = [] then arg_count
  else count_args (skip_token (skip_blanks p)) (arg_count + 1)
termination_by p.length
decreasing_by
  have h1 : (skip_blanks p).length ≤ p.length := (List.dropWhile_sublist _).length_le
  have hne : List.dropWhile is_blank p ≠ [] := h
  have hc := List.head_dropWhile_not is_blank p hne
  unfold skip_token
  cases hq : skip_blanks p with
  | nil => exact absurd hq h
  | cons c q =>
    have hq' : List.dropWhile is_blank p = c :: q := hq
    simp only [hq', List.head_cons] at hc
    have hc' : is_blank c = false := by simpa using hc
    rw [hq] at h1
    simp only [List.dropWhile_cons, hc', Bool.not_false, if_true]
    have h2 : (q.dropWhile (fun c => !is_blank c)).length ≤ q.length :=
      (List.dropWhile_sublist _).length_le
    simp only [List.length_cons] at h1
    omega

/-- A slot of the array `*new_argv`: as `malloc` left it, a string, or
`NULL`. -/
inductive argv_slot where
  | unassigned
  | str (s : List Char)
  | null
  deriving DecidableEq, Repr

/-- The filling loop of lines 556-592 from `p` on, with the current `i` and
the array (every `malloc` succeeds). -/
def fill_args (arg_count : Nat) (p : List Char) (i : Nat) (new_argv : List argv_slot) :
    List argv_slot :=
  if p = [] ∨ ¬ i < arg_count then new_argv
  else if h : skip_blanks p = [] then new_argv
  else
    fill_args arg_count (skip_token (skip_blanks p)) (i + 1)
      (new_argv.set i (argv_slot.str (token_at (skip_blanks p))))
termination_by p.length
decreasing_by
  have h1 : (skip_blanks p).length ≤ p.length := (List.dropWhile_sublist _).length_le
  have hne : List.dropWhile is_blank p ≠ [] := h
  have hc := List.head_dropWhile_not is_blank p hne
  unfold skip_token
  cases hq : skip_blanks p with
  | nil => exact absurd hq h
  | cons c q =>
    have hq' : List.dropWhile is_blank p = c :: q := hq
    simp only [hq', List.head_cons] at hc
    have hc' : is_blank c = false := by simpa using hc
    rw [hq] at h1
    simp only [List.dropWhile_cons, hc', Bool.not_false, if_true]
    have h2 : (q.dropWhile (fun c => !is_blank c)).length ≤ q.length :=
      (List.dropWhile_sublist _).length_le
    simp only [List.length_cons] at h1
    omega

/-- The call `strchr(buffer, c)` followed by `*found = '\0'` when `c` was
found: the C string ends before the first `c`. -/
def cut_at (buffer : List Char) (c : Char) : List Char :=
  buffer.takeWhile (fun x => decide (x ≠ c))

/-- Function `parse_command_line_from_file` (lines 463-602) with every
allocation succeeding: `file` holds the bytes of the file, `none` when
`fopen` fails; `program_name` is a string.  The result is the returned value
and, when that is 0, `*new_argc` and the array `*new_argv`. -/
def parse_command_line_from_file (file : Option (List Char)) (program_name : List Char) :
    Int × Option (Nat × List argv_slot) :=
  match file with
  | none => (-1, none)
  | some content =>
    let read := content.take 1023
    let bytes_read := read.length
    if bytes_read = 0 then (-1, none)
    else
      let buffer := read.takeWhile (fun x => decide (x ≠ NUL))
      let buffer := cut_at buffer '\n'
      let buffer := cut_at buffer '\r'
      let arg_count := count_args buffer 1
      let new_argv := List.replicate (arg_count + 1) argv_slot.unassigned
      let new_argv := new_argv.set 0 (argv_slot.str program_name)
      let new_argv := fill_args arg_count buffer 1 new_argv
      let new_argv := new_argv.set arg_count argv_slot.null
      (0, some (arg_count, new_argv))

/-- The maximal runs of bytes other than space and tab, from left to right. -/
def runs (l : List Char) : List (List Char) :=
  (l.splitOnP is_blank).filter (fun t => !t.isEmpty)

/-- The longest prefix of the first 1023 bytes of a file that holds no NUL,
no newline and no carriage return. -/
def first_line (content : List Char) : List Char :=
  (content.take 1023).takeWhile (fun x => decide (x ≠ NUL ∧ x ≠ '\n' ∧ x ≠ '\r'))

/-- The bytes of a file with the line `-w out.pcap a.pcap  b.pcap`. -/
def demo_file : List Char := "-w out.pcap a.pcap \t b.pcap\nrest".toList

/-- The program name of the worked examples. -/
def demo_program_name : List Char := "mergecap".toList

/-- An option value the library does not know: an unknown capture file type
after `-F`, an unknown IDB merge mode after `-I`, or an unknown compression
type after `--compress`. -/
def invalid_option_value (env : Wiretap) (e : getopt_result) : Prop :=
  (e.opt = opt_t.F ∧ env.wtap_name_to_file_type_subtype e.ws_optarg < 0)
  ∨ (e.opt = opt_t.I
      ∧ env.merge_string_to_idb_merge_mode e.ws_optarg = idb_merge_mode.IDB_MERGE_MODE_MAX)
  ∨ (e.opt = opt_t.LONGOPT_COMPRESS
      ∧ env.wtap_name_to_compression_type e.ws_optarg
        = wtap_compression_type.WTAP_UNKNOWN_COMPRESSION)

instance (env : Wiretap) (e : getopt_result) : Decidable (invalid_option_value env e) := by
  unfold invalid_option_value; infer_instance

/-- Whether a recorded call is `wtap_cleanup()`. -/
def Call.is_wtap_cleanup : Call → Bool
  | Call.wtap_cleanup => true
  | _ => false

/-- Whether a recorded call is `free_progdirs()`. -/
def Call.is_free_progdirs : Call → Bool
  | Call.free_progdirs => true
  | _ => false

/-- Command line `mergecap -h -F bogus`. -/
def cl_help_bogus : CommandLine :=
  { argv := ["mergecap", "-h", "-F", "bogus"]
    getopt := [got opt_t.h "", got opt_t.F "bogus"]
    ws_optind := 4 }

/-- Command line `mergecap -a -F bogus -w out.pcapng a.pcap`. -/
def cl_bogus_type : CommandLine :=
  { argv := ["mergecap", "-a", "-F", "bogus", "-w", "out.pcapng", "a.pcap"]
    getopt := [got opt_t.a "", got opt_t.F "bogus", got opt_t.w "out.pcapng"]
    ws_optind := 6 }

/-- Command line `mergecap --compress bogus -w out.pcapng a.pcap`. -/
def cl_bogus_compress : CommandLine :=
  { argv := ["mergecap", "--compress", "bogus", "-w", "out.pcapng", "a.pcap"]
    getopt := [got opt_t.LONGOPT_COMPRESS "bogus", got opt_t.w "out.pcapng"]
    ws_optind := 5 }

/-! ## The merge scheduler behind `merge_files`

The functions `merge_files` and `merge_files_to_stdout` belong to wiretap
and are not part of `mergecap.c`; their scheduler is modelled from sections
3 and 4.4 of the specification. -/

/-- Modelled from the spec: a record as the merge scheduler sees it
(section 3), its timestamp and the rest of its fields; the records come from
`merge_files` of wiretap, which is missing from the sources. -/
structure Record where
  ts : Nat
  payload : Nat
  deriving DecidableEq, Repr

/-- Modelled from the spec: one comparison of the choice of TimestampMerge
(section 4.4, missing from the sources): the next record of input `q`
against the best choice `best` among the inputs after it, whose indices
shift by one; the record of `q` wins when it is not later. -/
def pick_step (q : List Record) (best : Option (Nat × Record)) : Option (Nat × Record) :=
  match q, best with
  | [], none => none
  | [], some (k, r) => some (k + 1, r)
  | h :: _, none => some (0, h)
  | h :: _, some (k, r) => if h.ts ≤ r.ts then some (0, h) else some (k + 1, r)

/-- Modelled from the spec: the choice of TimestampMerge (section 4.4), which
is missing from the sources: among the inputs that still have a record, the
input whose next record has the smallest timestamp, the lower index on a
tie, together with that record; `none` when every input is exhausted. -/
def pick_next : List (List Record) → Option (Nat × Record)
  | [] => none
  | q :: rest => pick_step q (pick_next rest)

/-- Modelled from the spec: the inputs after input `i` has handed over its
next record (section 4.4, missing from the sources). -/
def advance : List (List Record) → Nat → List (List Record)
  | [], _ => []
  | q :: rest, 0 => q.tail :: rest
  | q :: rest, i + 1 => q :: advance rest i

/-- Modelled from the spec: at most `n` steps of the TimestampMerge scheduler
(section 4.4, missing from the sources); each step emits the chosen record
with the index of its input, and the scheduler stops when every input is
exhausted. -/
def merge_steps : Nat → List (List Record) → List (Nat × Record)
  | 0, _ => []
  | n + 1, inputs =>
    match pick_next inputs with
    | none => []
    | some (i, r) => (i, r) :: merge_steps n (advance inputs i)

/-- Number of records of all inputs. -/
def total_records (inputs : List (List Record)) : Nat :=
  (inputs.map List.length).sum

/-- Modelled from the spec: the output of TimestampMerge (section 4.4,
missing from the sources), the scheduler run for as many steps as there are
records. -/
def timestamp_merge (inputs : List (List Record)) : List (Nat × Record) :=
  merge_steps (total_records inputs) inputs

/-- An input is internally non-decreasing in timestamp. -/
def non_decreasing (q : List Record) : Prop :=
  q.Pairwise (fun a b => a.ts ≤ b.ts)

/-- Record `x` is among the records of input `k`. -/
def record_of (inputs : List (List Record)) (k : Nat) (x : Record) : Prop :=
  ∃ q, inputs[k]? = some q ∧ x ∈ q

/-- The scenario of section 8: input A with records at 1, 3, 5 and input B
with records at 2, 4. -/
def demo_inputs : List (List Record) :=
  [ [{ ts := 1, payload := 10 }, { ts := 3, payload := 11 }, { ts := 5, payload := 12 }],
    [{ ts := 2, payload := 20 }, { ts := 4, payload := 21 }] ]

/-! ## Facts about `strrchr` -/

theorem strrchr_none_iff (s : List Char) (c : Char) : strrchr s c = none ↔ c ∉ s := by
  induction s with
  | nil => simp [strrchr]
  | cons x xs ih =>
    simp only [strrchr]
    cases h : strrchr xs c with
    | some r =>
      have : ¬ c ∉ xs := fun hn => by rw [ih.mpr hn] at h; cases h
      simp only [List.mem_cons, not_or]
      constructor
      · intro h'; cases h'
      · intro h'; exact absurd h'.2 this
    | none =>
      have hx : c ∉ xs := ih.mp h
      by_cases hxc : x = c
      · simp [hxc]
      · simp [hxc, hx, Ne.symm hxc]

theorem strrchr_some_split (s : List Char) (c : Char) (r : List Char)
    (h : strrchr s c = some r) :
    ∃ pre t, s = pre ++ c :: t ∧ c ∉ t ∧ r = c :: t := by
  induction s generalizing r with
  | nil => simp [strrchr] at h
  | cons x xs ih =>
    simp only [strrchr] at h
    cases h' : strrchr xs c with
    | some r' =>
      rw [h'] at h
      simp only [Option.some.injEq] at h
      obtain ⟨pre, t, hs, ht, hr⟩ := ih r' h'
      exact ⟨x :: pre, t, by simp [hs], ht, by rw [← h, hr]⟩
    | none =>
      rw [h'] at h
      by_cases hxc : x = c
      · simp only [hxc, if_true, Option.some.injEq] at h
        exact ⟨[], xs, by simp [hxc], (strrchr_none_iff xs c).mp h', h.symm⟩
      · simp [hxc] at h

theorem strrchr_dot (name : String) :
    (strrchr name.data '.').map (fun sfx => String.mk (sfx.drop 1))
      = text_after_last_dot name := by
  unfold text_after_last_dot
  cases h : strrchr name.data '.' with
  | none =>
    have := (strrchr_none_iff _ _).mp h
    simp [this]
  | some r =>
    obtain ⟨pre, t, hs, ht, hr⟩ := strrchr_some_split _ _ _ h
    have hmem : '.' ∈ name.data := by rw [hs]; simp
    have htw : (name.data.reverse.takeWhile (fun c => decide (c ≠ '.'))) = t.reverse := by
      rw [hs]
      simp only [List.reverse_append, List.reverse_cons, List.append_assoc]
      rw [List.takeWhile_append_of_pos]
      · simp
      · intro a ha
        have : a ∈ t := by simpa using ha
        simp only [ne_eq, decide_not, Bool.not_eq_eq_eq_not, Bool.not_true, decide_eq_false_iff_not]
        intro hEq; exact ht (hEq ▸ this)
    rw [if_pos hmem, htw, hr]
    simp

/-! ## Facts about the option loop -/

theorem last_optarg_nil (o : opt_t) : last_optarg o [] = none := by
  simp [last_optarg]

theorem last_optarg_cons (o : opt_t) (e : getopt_result) (es : List getopt_result) :
    last_optarg o (e :: es)
      = match last_optarg o es with
        | some x => some x
        | none => if e.opt = o then some e.ws_optarg else none := by
  unfold last_optarg
  rw [List.reverse_cons, List.find?_append]
  cases h : es.reverse.find? (fun e => decide (e.opt = o)) with
  | some x => simp
  | none =>
    by_cases ho : e.opt = o
    · simp [List.find?_cons, ho]
    · simp [List.find?_cons, ho]

theorem opt_given_cons (o : opt_t) (e : getopt_result) (es : List getopt_result) :
    opt_given o (e :: es) = (decide (e.opt = o) || opt_given o es) := by
  simp [opt_given]

theorem opt_count_cons (o : opt_t) (e : getopt_result) (es : List getopt_result) :
    opt_count o (e :: es) = opt_count o es + (if e.opt = o then 1 else 0) := by
  simp [opt_count, List.countP_cons]

theorem last_optarg_none_iff (o : opt_t) (es : List getopt_result) :
    last_optarg o es = none ↔ opt_given o es = false := by
  induction es with
  | nil => simp [last_optarg, opt_given]
  | cons e es ih =>
    rw [last_optarg_cons, opt_given_cons]
    cases h : last_optarg o es with
    | some x =>
      have : opt_given o es ≠ false := fun hn => by rw [ih.mpr hn] at h; cases h
      simp [this]
    | none =>
      have hg := ih.mp h
      by_cases ho : e.opt = o
      · simp [ho]
      · simp [ho, hg]

theorem switch_body_next (env : Wiretap) (e : getopt_result) (v0 v1 : Vars) (t1 : List Call)
    (h : switch_body env e v0 = (Flow.next, v1, t1)) :
    t1 = [] ∧ v1.status = v0.status
    ∧ v1.do_append = (if e.opt = opt_t.a then !v0.do_append else v0.do_append)
    ∧ v1.verbose = (if e.opt = opt_t.V then true else v0.verbose)
    ∧ v1.out_filename = (if e.opt = opt_t.w then some e.ws_optarg else v0.out_filename)
    ∧ v1.snaplen = (if e.opt = opt_t.s then (env.get_nonzero_uint32 e.ws_optarg).getD 0
        else v0.snaplen)
    ∧ (e.opt = opt_t.s → (env.get_nonzero_uint32 e.ws_optarg).isSome = true)
    ∧ v1.file_type = (if e.opt = opt_t.F then env.wtap_name_to_file_type_subtype e.ws_optarg
        else v0.file_type)
    ∧ (e.opt = opt_t.F → 0 ≤ env.wtap_name_to_file_type_subtype e.ws_optarg)
    ∧ v1.mode = (if e.opt = opt_t.I then env.merge_string_to_idb_merge_mode e.ws_optarg
        else v0.mode)
    ∧ (e.opt = opt_t.I →
        env.merge_string_to_idb_merge_mode e.ws_optarg ≠ idb_merge_mode.IDB_MERGE_MODE_MAX)
    ∧ v1.compression_type = (if e.opt = opt_t.LONGOPT_COMPRESS then
        env.wtap_name_to_compression_type e.ws_optarg else v0.compression_type)
    ∧ (e.opt = opt_t.LONGOPT_COMPRESS →
        env.wtap_name_to_compression_type e.ws_optarg
          ≠ wtap_compression_type.WTAP_UNKNOWN_COMPRESSION)
    ∧ e.opt ≠ opt_t.h ∧ e.opt ≠ opt_t.v ∧ e.opt ≠ opt_t.bad := by
  obtain ⟨o, arg, oo⟩ := e
  cases o <;> simp only [switch_body] at h
  case a => simp at h; obtain ⟨rfl, rfl⟩ := h; simp
  case V => simp at h; obtain ⟨rfl, rfl⟩ := h; simp
  case w => simp at h; obtain ⟨rfl, rfl⟩ := h; simp
  case other => simp at h; obtain ⟨rfl, rfl⟩ := h; simp
  case h => simp at h
  case v => simp at h
  case bad => simp at h
  case F =>
    split at h
    · simp at h
    · rename_i hlt
      simp at h; obtain ⟨rfl, rfl⟩ := h
      simp only [not_lt] at hlt
      simp [hlt]
  case I =>
    split at h
    · simp at h
    · rename_i hne
      simp at h; obtain ⟨rfl, rfl⟩ := h
      simp [hne]
  case LONGOPT_COMPRESS =>
    split at h
    · simp at h
    · rename_i hne
      simp at h; obtain ⟨rfl, rfl⟩ := h
      simp [hne]
  case s =>
    split at h
    · rename_i n hn
      simp at h; obtain ⟨rfl, rfl⟩ := h
      simp [hn]
    · simp at h

theorem option_loop_nil (env : Wiretap) (v0 : Vars) :
    option_loop env [] v0 = (Flow.next, v0, []) := rfl

theorem option_loop_next_cons (env : Wiretap) (e : getopt_result) (es : List getopt_result)
    (v0 v : Vars) (t : List Call) :
    option_loop env (e :: es) v0 = (Flow.next, v, t)
      ↔ ∃ v1, switch_body env e v0 = (Flow.next, v1, [])
          ∧ option_loop env es v1 = (Flow.next, v, t) := by
  constructor
  · intro h
    simp only [option_loop] at h
    rcases hsb : switch_body env e v0 with ⟨f1, v1, t1⟩
    rw [hsb] at h
    cases f1 with
    | next =>
      have ht1 := (switch_body_next env e v0 v1 t1 hsb).1
      subst ht1
      simp only [List.nil_append, Prod.mk.injEq] at h
      exact ⟨v1, rfl, Prod.ext h.1 (Prod.ext h.2.1 h.2.2)⟩
    | clean_exit => simp at h
    | exit c => simp at h
  · rintro ⟨v1, h1, h2⟩
    simp only [option_loop, h1, h2, List.nil_append]

/-- A variable that only option `o` assigns, from the option's argument,
holds after the loop what the last occurrence of `o` gave it. -/
theorem option_loop_last {α : Type} (env : Wiretap) (g : Vars → α) (o : opt_t)
    (f : String → α) (P : String → Prop)
    (hstep : ∀ e v0 v1 t1, switch_body env e v0 = (Flow.next, v1, t1) →
      g v1 = (if e.opt = o then f e.ws_optarg else g v0) ∧ (e.opt = o → P e.ws_optarg))
    (es : List getopt_result) (v0 v : Vars) (t : List Call)
    (h : option_loop env es v0 = (Flow.next, v, t)) :
    g v = ((last_optarg o es).map f).getD (g v0)
      ∧ ∀ x, last_optarg o es = some x → P x := by
  induction es generalizing v0 with
  | nil =>
    rw [option_loop_nil] at h
    simp only [Prod.mk.injEq, true_and] at h
    simp [last_optarg_nil, h.1]
  | cons e es ih =>
    obtain ⟨v1, h1, h2⟩ := (option_loop_next_cons env e es v0 v t).mp h
    obtain ⟨hg, hP⟩ := ih v1 h2
    obtain ⟨hg1, hP1⟩ := hstep e v0 v1 [] h1
    rw [last_optarg_cons]
    cases hl : last_optarg o es with
    | some x =>
      rw [hl] at hg hP
      exact ⟨by simpa using hg, fun y hy => by
        simp only [Option.some.injEq] at hy; exact hP y (by rw [hy])⟩
    | none =>
      rw [hl] at hg
      simp only [Option.map_none', Option.getD_none] at hg
      by_cases ho : e.opt = o
      · simp only [ho, if_true] at hg1 ⊢
        refine ⟨by simp [hg, hg1], fun y hy => ?_⟩
        simp only [Option.some.injEq] at hy
        exact hy ▸ hP1 ho
      · simp only [ho, if_false] at hg1 ⊢
        exact ⟨by simp [hg, hg1], fun y hy => by cases hy⟩

theorem option_loop_next (env : Wiretap) (es : List getopt_result) (v0 v : Vars)
    (t : List Call) (h : option_loop env es v0 = (Flow.next, v, t)) :
    t = [] ∧ v.status = v0.status
    ∧ v.do_append = (v0.do_append != decide (opt_count opt_t.a es % 2 = 1))
    ∧ v.verbose = (v0.verbose || opt_given opt_t.V es)
    ∧ opt_given opt_t.h es = false ∧ opt_given opt_t.v es = false
    ∧ opt_given opt_t.bad es = false := by
  induction es generalizing v0 with
  | nil =>
    rw [option_loop_nil] at h
    simp only [Prod.mk.injEq, true_and] at h
    obtain ⟨rfl, rfl⟩ := h
    simp [opt_count, opt_given]
  | cons e es ih =>
    obtain ⟨v1, h1, h2⟩ := (option_loop_next_cons env e es v0 v t).mp h
    obtain ⟨ht, hst, hda, hvb, hh, hv, hb⟩ := ih v1 h2
    obtain ⟨-, hst1, hda1, hvb1, -, -, -, -, -, -, -, -, -, nh, nv, nb⟩ :=
      switch_body_next env e v0 v1 [] h1
    refine ⟨ht, hst.trans hst1, ?_, ?_, ?_, ?_, ?_⟩
    · rw [hda, hda1, opt_count_cons]
      by_cases ho : e.opt = opt_t.a
      · simp only [ho, if_true]
        by_cases hp : opt_count opt_t.a es % 2 = 1
        · have : ¬ (opt_count opt_t.a es + 1) % 2 = 1 := by omega
          simp [hp, this]
        · have : (opt_count opt_t.a es + 1) % 2 = 1 := by omega
          simp [hp, this]
      · simp [ho]
    · rw [hvb, hvb1, opt_given_cons]
      by_cases ho : e.opt = opt_t.V
      · simp [ho]
      · simp [ho]
    · rw [opt_given_cons, hh]; simp [nh]
    · rw [opt_given_cons, hv]; simp [nv]
    · rw [opt_given_cons, hb]; simp [nb]

theorem switch_body_no_merge (env : Wiretap) (e : getopt_result) (v0 : Vars) :
    ∀ c ∈ (switch_body env e v0).2.2, Call.is_merge c = false := by
  obtain ⟨o, arg, oo⟩ := e
  cases o <;> simp only [switch_body]
  case F => split <;> simp [Call.is_merge]
  case I => split <;> simp [Call.is_merge]
  case LONGOPT_COMPRESS => split <;> simp [Call.is_merge]
  case s => split <;> simp
  case bad => cases oo <;> simp [Call.is_merge]
  all_goals simp [Call.is_merge]

theorem option_loop_no_merge (env : Wiretap) (es : List getopt_result) (v0 : Vars) :
    ∀ c ∈ (option_loop env es v0).2.2, Call.is_merge c = false := by
  induction es generalizing v0 with
  | nil => simp [option_loop]
  | cons e es ih =>
    have hs := switch_body_no_merge env e v0
    simp only [option_loop]
    rcases hsb : switch_body env e v0 with ⟨f1, v1, t1⟩
    rw [hsb] at hs
    cases f1 with
    | next =>
      intro c hc
      simp only [List.mem_append] at hc
      rcases hc with hc | hc
      · exact hs c hc
      · exact ih v1 c hc
    | clean_exit => exact hs
    | exit c => exact hs

/-! ## The variables after a completed option loop -/

theorem option_loop_init (env : Wiretap) (cl : CommandLine) (h : options_completed env cl) :
    ∃ v, option_loop env cl.getopt Vars.init = (Flow.next, v, [])
      ∧ v.status = true
      ∧ v.do_append = decide (opt_count opt_t.a cl.getopt % 2 = 1)
      ∧ v.verbose = opt_given opt_t.V cl.getopt
      ∧ v.out_filename = last_optarg opt_t.w cl.getopt
      ∧ v.snaplen = chosen_snaplen env cl.getopt
      ∧ (if v.file_type = WTAP_FILE_TYPE_SUBTYPE_UNKNOWN then env.wtap_pcapng_file_type_subtype
          else v.file_type) = chosen_file_type env cl.getopt
      ∧ (v.mode = idb_merge_mode.IDB_MERGE_MODE_MAX ↔ last_optarg opt_t.I cl.getopt = none)
      ∧ (if v.mode = idb_merge_mode.IDB_MERGE_MODE_MAX then
          idb_merge_mode.IDB_MERGE_MODE_ALL_SAME else v.mode) = chosen_mode env cl.getopt
      ∧ v.compression_type
          = ((last_optarg opt_t.LONGOPT_COMPRESS cl.getopt).map
              env.wtap_name_to_compression_type).getD
                wtap_compression_type.WTAP_UNKNOWN_COMPRESSION
      ∧ (∀ x, last_optarg opt_t.LONGOPT_COMPRESS cl.getopt = some x →
          env.wtap_name_to_compression_type x
            ≠ wtap_compression_type.WTAP_UNKNOWN_COMPRESSION) := by
  unfold options_completed at h
  rcases hl : option_loop env cl.getopt Vars.init with ⟨f, v, t⟩
  rw [hl] at h
  simp only at h
  subst h
  obtain ⟨ht, hst, hda, hvb, -, -, -⟩ := option_loop_next env _ _ _ _ hl
  subst ht
  have hw := option_loop_last env (fun v => v.out_filename) opt_t.w some (fun _ => True)
    (fun e v0 v1 t1 h1 => ⟨(switch_body_next env e v0 v1 t1 h1).2.2.2.2.1, fun _ => trivial⟩)
    _ _ _ _ hl
  have hs := option_loop_last env (fun v => v.snaplen) opt_t.s
    (fun x => (env.get_nonzero_uint32 x).getD 0) (fun _ => True)
    (fun e v0 v1 t1 h1 => ⟨(switch_body_next env e v0 v1 t1 h1).2.2.2.2.2.1, fun _ => trivial⟩)
    _ _ _ _ hl
  have hF := option_loop_last env (fun v => v.file_type) opt_t.F
    env.wtap_name_to_file_type_subtype (fun x => 0 ≤ env.wtap_name_to_file_type_subtype x)
    (fun e v0 v1 t1 h1 =>
      ⟨(switch_body_next env e v0 v1 t1 h1).2.2.2.2.2.2.2.1,
       (switch_body_next env e v0 v1 t1 h1).2.2.2.2.2.2.2.2.1⟩)
    _ _ _ _ hl
  have hI := option_loop_last env (fun v => v.mode) opt_t.I
    env.merge_string_to_idb_merge_mode
    (fun x => env.merge_string_to_idb_merge_mode x ≠ idb_merge_mode.IDB_MERGE_MODE_MAX)
    (fun e v0 v1 t1 h1 =>
      ⟨(switch_body_next env e v0 v1 t1 h1).2.2.2.2.2.2.2.2.2.1,
       (switch_body_next env e v0 v1 t1 h1).2.2.2.2.2.2.2.2.2.2.1⟩)
    _ _ _ _ hl
  have hC := option_loop_last env (fun v => v.compression_type) opt_t.LONGOPT_COMPRESS
    env.wtap_name_to_compression_type
    (fun x => env.wtap_name_to_compression_type x
      ≠ wtap_compression_type.WTAP_UNKNOWN_COMPRESSION)
    (fun e v0 v1 t1 h1 =>
      ⟨(switch_body_next env e v0 v1 t1 h1).2.2.2.2.2.2.2.2.2.2.2.1,
       (switch_body_next env e v0 v1 t1 h1).2.2.2.2.2.2.2.2.2.2.2.2.1⟩)
    _ _ _ _ hl
  simp only at hw hs hF hI hC
  refine ⟨v, rfl, by simpa [Vars.init] using hst, by simpa [Vars.init] using hda,
    by simpa [Vars.init] using hvb, ?_, ?_, ?_, ?_, ?_, hC.1, hC.2⟩
  · rw [hw.1]; cases last_optarg opt_t.w cl.getopt <;> simp [Vars.init]
  · rw [hs.1]; unfold chosen_snaplen
    cases last_optarg opt_t.s cl.getopt <;> simp [Vars.init]
  · rw [hF.1]; unfold chosen_file_type
    cases hx : last_optarg opt_t.F cl.getopt with
    | none => simp [Vars.init]
    | some x =>
      have := hF.2 x hx
      have hne : env.wtap_name_to_file_type_subtype x ≠ WTAP_FILE_TYPE_SUBTYPE_UNKNOWN := by
        unfold WTAP_FILE_TYPE_SUBTYPE_UNKNOWN; omega
      simp [hne]
  · rw [hI.1]
    cases hx : last_optarg opt_t.I cl.getopt with
    | none => simp [Vars.init]
    | some x => simpa using hI.2 x hx
  · rw [hI.1]; unfold chosen_mode
    cases hx : last_optarg opt_t.I cl.getopt with
    | none => simp [Vars.init]
    | some x => simp [hI.2 x hx]

theorem resolve_compression_type_described (env : Wiretap) (es : List getopt_result)
    (ct : wtap_compression_type) (out : String)
    (hct : ct = ((last_optarg opt_t.LONGOPT_COMPRESS es).map
        env.wtap_name_to_compression_type).getD wtap_compression_type.WTAP_UNKNOWN_COMPRESSION)
    (hC : ∀ x, last_optarg opt_t.LONGOPT_COMPRESS es = some x →
        env.wtap_name_to_compression_type x ≠ wtap_compression_type.WTAP_UNKNOWN_COMPRESSION)
    (hw : last_optarg opt_t.w es = some out) :
    resolve_compression_type env ct out = described_compression_type env es := by
  unfold resolve_compression_type described_compression_type
  rw [hw]
  simp only [Option.some_bind, ← strrchr_dot]
  cases hx : last_optarg opt_t.LONGOPT_COMPRESS es with
  | some x =>
    rw [hx] at hct
    simp only [Option.map_some', Option.getD_some] at hct
    have := hC x hx
    simp [hct, this]
  | none =>
    rw [hx] at hct
    simp only [Option.map_none', Option.getD_none] at hct
    subst hct
    cases strrchr out.data '.' with
    | none => simp
    | some sfx => simp

/-- The outcome of a run whose option processing ran to completion, read off
the command line. -/
theorem original_main_completed (env : Wiretap) (cl : CommandLine)
    (h : options_completed env cl) :
    original_main env cl =
      match last_optarg opt_t.w cl.getopt with
      | none =>
        clean_exit false [Call.wtap_init,
          Call.cmdarg_err "an output filename must be set with -w",
          Call.cmdarg_err_cont "run with -h for help"]
      | some out =>
        if input_count cl < 1 then
          { exit := Exit.returned 1
            calls := [Call.wtap_init, Call.cmdarg_err "No input files were specified"] }
        else if env.wtap_can_write_compression_type
            (described_compression_type env cl.getopt) = false then
          clean_exit false [Call.wtap_init,
            Call.cmdarg_err "Output files can't be written as %s"]
        else if described_compression_type env cl.getopt
              ≠ wtap_compression_type.WTAP_UNCOMPRESSED
            ∧ env.wtap_dump_can_compress (chosen_file_type env cl.getopt) = false then
          clean_exit false [Call.wtap_init,
            Call.cmdarg_err "The file format %s can't be written to output compressed format"]
        else if opt_given opt_t.I cl.getopt = true
            ∧ env.wtap_file_type_subtype_supports_block (chosen_file_type env cl.getopt)
                wtap_block_type_t.WTAP_BLOCK_IF_ID_AND_INFO
              = block_support_t.BLOCK_NOT_SUPPORTED then
          clean_exit false [Call.wtap_init,
            Call.cmdarg_err
              "The IDB merge mode can only be used with an output format that identifies interfaces"]
        else if out = "-" then
          clean_exit (env.merge_files_to_stdout (merge_args_of env cl))
            [Call.wtap_init, Call.merge_files_to_stdout (merge_args_of env cl)]
        else
          clean_exit (env.merge_files out (merge_args_of env cl))
            [Call.wtap_init, Call.merge_files out (merge_args_of env cl)] := by
  obtain ⟨v, hl, -, hda, hvb, hw, hs, hF, hImax, hI, hct, hC⟩ := option_loop_init env cl h
  have hIg : (v.mode ≠ idb_merge_mode.IDB_MERGE_MODE_MAX) ↔ opt_given opt_t.I cl.getopt = true := by
    rw [Ne, hImax, last_optarg_none_iff]; simp
  unfold original_main
  rw [hl]
  simp only [after_options, hw]
  cases hout : last_optarg opt_t.w cl.getopt with
  | none => simp
  | some out =>
    have hres := resolve_compression_type_described env cl.getopt v.compression_type out hct hC hout
    simp only [hres, hF, hI, hIg, ← hda, ← hvb, ← hs]
    unfold merge_args_of input_count
    simp only [List.cons_append, List.nil_append, Bool.not_eq_true', ← hda, ← hvb, ← hs]

/-- A run whose option processing stops early calls no merge function. -/
theorem original_main_stopped (env : Wiretap) (cl : CommandLine)
    (h : ¬ options_completed env cl) :
    merge_invoked (original_main env cl) = false
      ∧ ((original_main env cl).exit = Exit.returned 0
          ∨ (original_main env cl).exit = Exit.returned 2
          ∨ ∃ n, (original_main env cl).exit = Exit.exited n) := by
  unfold options_completed at h
  have hnm := option_loop_no_merge env cl.getopt Vars.init
  unfold original_main merge_invoked
  rcases hl : option_loop env cl.getopt Vars.init with ⟨f, v, t⟩
  rw [hl] at h hnm
  simp only at h hnm
  cases f with
  | next => exact absurd rfl h
  | clean_exit =>
    simp only [clean_exit]
    constructor
    · simp only [List.any_eq_false, List.mem_append, List.mem_cons]
      intro c hc
      rcases hc with (rfl | hc) | hc
      · simp [Call.is_merge]
      · simp [hnm c hc]
      · rcases hc with rfl | rfl | hc
        · simp [Call.is_merge]
        · simp [Call.is_merge]
        · cases hc
    · cases v.status <;> simp
  | exit n =>
    constructor
    · simp only [List.any_eq_false, List.mem_cons]
      intro c hc
      rcases hc with rfl | hc
      · simp [Call.is_merge]
      · simp [hnm c hc]
    · exact Or.inr (Or.inr ⟨n, rfl⟩)

/-- When the option processing completes, an output name is set, an input
file is left and the three checks pass, the merge is called. -/
theorem original_main_merges (env : Wiretap) (cl : CommandLine) (out : String)
    (h : options_completed env cl) (hw : last_optarg opt_t.w cl.getopt = some out)
    (hin : 1 ≤ input_count cl) (hchk : checks_pass env cl) :
    original_main env cl
      = clean_exit (merge_result_of env cl out) [Call.wtap_init, merge_call_of env cl out] := by
  rw [original_main_completed env cl h, hw]
  obtain ⟨h1, h2, h3⟩ := hchk
  have hin' : ¬ input_count cl < 1 := by omega
  have h2' : ¬ (described_compression_type env cl.getopt
        ≠ wtap_compression_type.WTAP_UNCOMPRESSED
      ∧ env.wtap_dump_can_compress (chosen_file_type env cl.getopt) = false) := by
    rintro ⟨ha, hb⟩
    rcases h2 with h2 | h2
    · exact ha h2
    · rw [h2] at hb; cases hb
  have h3' : ¬ (opt_given opt_t.I cl.getopt = true
      ∧ env.wtap_file_type_subtype_supports_block (chosen_file_type env cl.getopt)
          wtap_block_type_t.WTAP_BLOCK_IF_ID_AND_INFO
        = block_support_t.BLOCK_NOT_SUPPORTED) := by
    rintro ⟨ha, hb⟩
    rcases h3 with h3 | h3
    · rw [h3] at ha; cases ha
    · exact h3 hb
  simp only [hin', h1, h2', h3', if_false, Bool.true_eq_false]
  unfold merge_result_of merge_call_of
  by_cases ho : out = "-"
  · simp [ho]
  · simp [ho]

/-- A recorded merge call pins the run down: the option processing completed,
an output name was set, an input file was left, and the checks passed. -/
theorem merge_reached (env : Wiretap) (cl : CommandLine) (c : Call)
    (hc : c ∈ (original_main env cl).calls) (hm : Call.is_merge c = true) :
    options_completed env cl
      ∧ ∃ out, last_optarg opt_t.w cl.getopt = some out ∧ 1 ≤ input_count cl
          ∧ checks_pass env cl ∧ c = merge_call_of env cl out
          ∧ original_main env cl
              = clean_exit (merge_result_of env cl out) [Call.wtap_init, c] := by
  by_cases h : options_completed env cl
  swap
  · have := (original_main_stopped env cl h).1
    unfold merge_invoked at this
    rw [List.any_eq_false] at this
    exact absurd hm (by simpa using this c hc)
  refine ⟨h, ?_⟩
  have hcomp := original_main_completed env cl h
  cases hw : last_optarg opt_t.w cl.getopt with
  | none =>
    rw [hw] at hcomp
    rw [hcomp] at hc
    simp only [clean_exit, List.cons_append, List.nil_append, List.mem_cons, List.mem_nil_iff,
      or_false] at hc
    rcases hc with rfl | rfl | rfl | rfl | rfl <;> simp [Call.is_merge] at hm
  | some out =>
    rw [hw] at hcomp
    simp only at hcomp
    by_cases hin : input_count cl < 1
    · rw [if_pos hin] at hcomp
      rw [hcomp] at hc
      simp only [List.mem_cons, List.mem_nil_iff, or_false] at hc
      rcases hc with rfl | rfl <;> simp [Call.is_merge] at hm
    rw [if_neg hin] at hcomp
    by_cases h1 : env.wtap_can_write_compression_type
        (described_compression_type env cl.getopt) = false
    · rw [if_pos h1] at hcomp
      rw [hcomp] at hc
      simp only [clean_exit, List.cons_append, List.nil_append, List.mem_cons,
        List.mem_nil_iff, or_false] at hc
      rcases hc with rfl | rfl | rfl | rfl <;> simp [Call.is_merge] at hm
    rw [if_neg h1] at hcomp
    by_cases h2 : described_compression_type env cl.getopt
          ≠ wtap_compression_type.WTAP_UNCOMPRESSED
        ∧ env.wtap_dump_can_compress (chosen_file_type env cl.getopt) = false
    · rw [if_pos h2] at hcomp
      rw [hcomp] at hc
      simp only [clean_exit, List.cons_append, List.nil_append, List.mem_cons,
        List.mem_nil_iff, or_false] at hc
      rcases hc with rfl | rfl | rfl | rfl <;> simp [Call.is_merge] at hm
    rw [if_neg h2] at hcomp
    by_cases h3 : opt_given opt_t.I cl.getopt = true
        ∧ env.wtap_file_type_subtype_supports_block (chosen_file_type env cl.getopt)
            wtap_block_type_t.WTAP_BLOCK_IF_ID_AND_INFO
          = block_support_t.BLOCK_NOT_SUPPORTED
    · rw [if_pos h3] at hcomp
      rw [hcomp] at hc
      simp only [clean_exit, List.cons_append, List.nil_append, List.mem_cons,
        List.mem_nil_iff, or_false] at hc
      rcases hc with rfl | rfl | rfl | rfl <;> simp [Call.is_merge] at hm
    have hchk : checks_pass env cl := by
      refine ⟨by simpa using h1, ?_, ?_⟩
      · by_cases hu : described_compression_type env cl.getopt
            = wtap_compression_type.WTAP_UNCOMPRESSED
        · exact Or.inl hu
        · right
          by_contra hcc
          exact h2 ⟨hu, by simpa using hcc⟩
      · by_cases hg : opt_given opt_t.I cl.getopt = true
        · right
          intro hb
          exact h3 ⟨hg, hb⟩
        · left; simpa using hg
    have hmain := original_main_merges env cl out h hw (by omega) hchk
    refine ⟨out, rfl, by omega, hchk, ?_⟩
    rw [hmain] at hc ⊢
    simp only [clean_exit, List.cons_append, List.nil_append, List.mem_cons,
      List.mem_nil_iff, or_false] at hc
    rcases hc with rfl | rfl | rfl | rfl
    · simp [Call.is_merge] at hm
    · exact ⟨rfl, rfl⟩
    · simp [Call.is_merge] at hm
    · simp [Call.is_merge] at hm

theorem switch_body_flow (env : Wiretap) (e : getopt_result) (v : Vars) :
    (switch_body env e v).1 = Flow.next ↔ option_accepted env e = true := by
  obtain ⟨o, arg, oo⟩ := e
  cases o <;> simp only [switch_body, option_accepted]
  case F =>
    split
    · rename_i h
      simp [h]
    · rename_i h
      simp [not_lt.mp h]
  case I => split <;> rename_i h <;> simp [h]
  case LONGOPT_COMPRESS => split <;> rename_i h <;> simp [h]
  case s => split <;> rename_i h <;> simp [h]
  all_goals simp

theorem option_loop_flow (env : Wiretap) (es : List getopt_result) (v : Vars) :
    (option_loop env es v).1 = Flow.next ↔ es.all (option_accepted env) = true := by
  induction es generalizing v with
  | nil => simp [option_loop]
  | cons e es ih =>
    have hs := switch_body_flow env e v
    simp only [option_loop, List.all_cons, Bool.and_eq_true]
    rcases hsb : switch_body env e v with ⟨f1, v1, t1⟩
    rw [hsb] at hs
    simp only at hs
    cases f1 with
    | next =>
      simp only
      rw [ih v1]
      simp [hs.mp rfl]
    | clean_exit =>
      have : ¬ option_accepted env e = true := fun h => by cases hs.mpr h
      simp [this]
    | exit n =>
      have : ¬ option_accepted env e = true := fun h => by cases hs.mpr h
      simp [this]

/-- Option processing runs to completion exactly when every option is an
accepted one. -/
theorem options_completed_iff (env : Wiretap) (cl : CommandLine) :
    options_completed env cl ↔ cl.getopt.all (option_accepted env) = true :=
  option_loop_flow env cl.getopt Vars.init

/-! ## Reading a recorded merge call -/

theorem is_merge_of_merge_args (c : Call) (a : merge_args) (h : Call.merge_args? c = some a) :
    Call.is_merge c = true := by
  cases c <;> simp [Call.merge_args?] at h <;> rfl

theorem merge_args_of_call (env : Wiretap) (cl : CommandLine) (out : String) :
    Call.merge_args? (merge_call_of env cl out) = some (merge_args_of env cl) := by
  unfold merge_call_of
  by_cases h : out = "-" <;> simp [h, Call.merge_args?]

theorem merge_result_of_call (env : Wiretap) (cl : CommandLine) (out : String) :
    Call.merge_result env (merge_call_of env cl out) = some (merge_result_of env cl out) := by
  unfold merge_call_of merge_result_of
  by_cases h : out = "-" <;> simp [h, Call.merge_result]

theorem is_merge_of_merge_result (env : Wiretap) (c : Call) (r : Bool)
    (h : Call.merge_result env c = some r) : Call.is_merge c = true := by
  cases c <;> simp [Call.merge_result] at h <;> rfl

/-- The arguments of a recorded merge call are those read off the command
line. -/
theorem merge_args_reached (env : Wiretap) (cl : CommandLine) (c : Call) (a : merge_args)
    (hc : c ∈ (original_main env cl).calls) (ha : Call.merge_args? c = some a) :
    a = merge_args_of env cl := by
  obtain ⟨-, out, -, -, -, hcall, -⟩ :=
    merge_reached env cl c hc (is_merge_of_merge_args c a ha)
  rw [hcall, merge_args_of_call] at ha
  exact (Option.some.inj ha).symm

theorem described_compression_type_known (env : Wiretap) (es : List getopt_result)
    (hC : ∀ x, last_optarg opt_t.LONGOPT_COMPRESS es = some x →
        env.wtap_name_to_compression_type x ≠ wtap_compression_type.WTAP_UNKNOWN_COMPRESSION) :
    described_compression_type env es ≠ wtap_compression_type.WTAP_UNKNOWN_COMPRESSION := by
  unfold described_compression_type
  cases hx : last_optarg opt_t.LONGOPT_COMPRESS es with
  | some x => exact hC x hx
  | none =>
    cases (last_optarg opt_t.w es).bind text_after_last_dot with
    | none => simp
    | some ext =>
      by_cases he : env.wtap_extension_to_compression_type ext
          = wtap_compression_type.WTAP_UNKNOWN_COMPRESSION
      · simp [he]
      · simp [he]

theorem merge_invoked_clean_exit_false (status : Bool) (calls : List Call)
    (h : ∀ c ∈ calls, Call.is_merge c = false) :
    merge_invoked (clean_exit status calls) = false := by
  unfold merge_invoked clean_exit
  simp only [List.any_eq_false, List.mem_append, List.mem_cons, List.mem_nil_iff, or_false]
  intro c hc
  rcases hc with hc | rfl | rfl
  · simp [h c hc]
  · simp [Call.is_merge]
  · simp [Call.is_merge]

/-! ## The claims -/

/-- C1: on every command line on which `original_main` calls `merge_files` or
`merge_files_to_stdout`, the compression type handed over is the type named
with `--compress` when that option is given (its name is then a recognised
one, and the output name is not looked at); without `--compress` it is the
type `wtap_extension_to_compression_type` gives for the text after the last
`.` of the output name, when the name has a `.` and the extension is known;
otherwise it is `WTAP_UNCOMPRESSED`.  It is never `WTAP_UNKNOWN_COMPRESSION`. -/
theorem C1_compression_type_handed_to_merge (env : Wiretap) (cl : CommandLine) (c : Call)
    (a : merge_args) (hc : c ∈ (original_main env cl).calls)
    (ha : Call.merge_args? c = some a) :
    a.compression_type = described_compression_type env cl.getopt
      ∧ (∀ name, last_optarg opt_t.LONGOPT_COMPRESS cl.getopt = some name →
          a.compression_type = env.wtap_name_to_compression_type name)
      ∧ a.compression_type ≠ wtap_compression_type.WTAP_UNKNOWN_COMPRESSION := by
  have hargs := merge_args_reached env cl c a hc ha
  obtain ⟨hdone, -⟩ := merge_reached env cl c hc (is_merge_of_merge_args c a ha)
  obtain ⟨v, -, -, -, -, -, -, -, -, -, -, hC⟩ := option_loop_init env cl hdone
  have hct : a.compression_type = described_compression_type env cl.getopt := by
    rw [hargs]; rfl
  refine ⟨hct, ?_, ?_⟩
  · intro name hname
    rw [hct]
    unfold described_compression_type
    rw [hname]
  · rw [hct]
    exact described_compression_type_known env cl.getopt hC

/-- Witness of C1: `mergecap -w out.gz a.pcap b.pcap` merges with gzip
compression, taken from the extension of the output name. -/
theorem C1_compression_type_handed_to_merge_witness :
    wtap_compression_type.WTAP_GZIP_COMPRESSED
      = described_compression_type demoWiretap cl_gz.getopt :=
  (C1_compression_type_handed_to_merge demoWiretap cl_gz
    (Call.merge_files "out.gz"
      { file_type := 2, in_filenames := ["a.pcap", "b.pcap"], in_file_count := 2,
        do_append := false, mode := idb_merge_mode.IDB_MERGE_MODE_ALL_SAME, snaplen := 0,
        cb := none, compression_type := wtap_compression_type.WTAP_GZIP_COMPRESSED })
    _ (by decide) rfl).1

/-- C2: when a run of `original_main` gets as far as resolving the
compression type (the option processing completed, an output name is set and
an input file is left) and the resolved type cannot be written at all, or it
is not `WTAP_UNCOMPRESSED` and the chosen output file type cannot be
compressed, the run returns 2 and calls neither `merge_files` nor
`merge_files_to_stdout`. -/
theorem C2_unwritable_compression_fails (env : Wiretap) (cl : CommandLine) (out : String)
    (hdone : options_completed env cl) (hw : last_optarg opt_t.w cl.getopt = some out)
    (hin : 1 ≤ input_count cl)
    (hbad : env.wtap_can_write_compression_type
          (described_compression_type env cl.getopt) = false
        ∨ (described_compression_type env cl.getopt ≠ wtap_compression_type.WTAP_UNCOMPRESSED
            ∧ env.wtap_dump_can_compress (chosen_file_type env cl.getopt) = false)) :
    (original_main env cl).exit = Exit.returned 2
      ∧ merge_invoked (original_main env cl) = false := by
  rw [original_main_completed env cl hdone, hw]
  have hin' : ¬ input_count cl < 1 := by omega
  simp only [hin', if_false]
  by_cases h1 : env.wtap_can_write_compression_type
      (described_compression_type env cl.getopt) = false
  · rw [if_pos h1]
    exact ⟨rfl, merge_invoked_clean_exit_false _ _ (by simp [Call.is_merge])⟩
  · rw [if_neg h1]
    have h2 := hbad.resolve_left h1
    rw [if_pos h2]
    exact ⟨rfl, merge_invoked_clean_exit_false _ _ (by simp [Call.is_merge])⟩

/-- Witness of C2: `mergecap --compress zstd -w out.pcapng a.pcap`, where
zstd output cannot be written, returns 2 without merging. -/
theorem C2_unwritable_compression_fails_witness :
    (original_main demoWiretap cl_zstd).exit = Exit.returned 2
      ∧ merge_invoked (original_main demoWiretap cl_zstd) = false :=
  C2_unwritable_compression_fails demoWiretap cl_zstd "out.pcapng" (by decide) (by decide)
    (by decide) (Or.inl (by decide))

/-- Counterexample to C3 as stated: `mergecap -F pcap -I none -h` selects a
merge mode with `-I` for the file type pcap, which has no interface blocks,
and the run prints the help and returns 0. -/
theorem C3_idb_mode_rejected_counterexample :
    opt_given opt_t.I cl_idb_help.getopt = true
      ∧ demoWiretap.wtap_file_type_subtype_supports_block
          (chosen_file_type demoWiretap cl_idb_help.getopt)
          wtap_block_type_t.WTAP_BLOCK_IF_ID_AND_INFO = block_support_t.BLOCK_NOT_SUPPORTED
      ∧ (original_main demoWiretap cl_idb_help).exit = Exit.returned 0 := by
  decide

/-- C3 (amended): on every command line that selects a merge mode with `-I`
while the chosen output file type has no interface blocks, neither
`merge_files` nor `merge_files_to_stdout` is called; and when the option
processing runs to completion and at least one input file is named, the run
returns 2. -/
theorem C3_idb_mode_rejected (env : Wiretap) (cl : CommandLine)
    (hI : opt_given opt_t.I cl.getopt = true)
    (hns : env.wtap_file_type_subtype_supports_block (chosen_file_type env cl.getopt)
        wtap_block_type_t.WTAP_BLOCK_IF_ID_AND_INFO = block_support_t.BLOCK_NOT_SUPPORTED) :
    merge_invoked (original_main env cl) = false
      ∧ (options_completed env cl → 1 ≤ input_count cl →
          (original_main env cl).exit = Exit.returned 2) := by
  constructor
  · by_contra hinv
    have hinv' : merge_invoked (original_main env cl) = true := by simpa using hinv
    unfold merge_invoked at hinv'
    rw [List.any_eq_true] at hinv'
    obtain ⟨c, hc, hm⟩ := hinv'
    obtain ⟨-, out, -, -, ⟨-, -, h3⟩, -, -⟩ := merge_reached env cl c hc hm
    rcases h3 with h3 | h3
    · rw [hI] at h3; cases h3
    · exact h3 hns
  · intro hdone hin
    rw [original_main_completed env cl hdone]
    have hin' : ¬ input_count cl < 1 := by omega
    cases last_optarg opt_t.w cl.getopt with
    | none => rfl
    | some out =>
      simp only [hin', if_false]
      split
      · rfl
      · split
        · rfl
        · rw [if_pos ⟨hI, hns⟩]
          rfl

/-- Witness of C3: `mergecap -F pcap -I none -w out.pcap a.pcap` returns 2
without merging. -/
theorem C3_idb_mode_rejected_witness :
    merge_invoked (original_main demoWiretap cl_idb_pcap) = false
      ∧ (original_main demoWiretap cl_idb_pcap).exit = Exit.returned 2 :=
  ⟨(C3_idb_mode_rejected demoWiretap cl_idb_pcap (by decide) (by decide)).1,
   (C3_idb_mode_rejected demoWiretap cl_idb_pcap (by decide) (by decide)).2
     (by decide) (by decide)⟩

/-- C4: a merge call of `original_main` is `merge_files_to_stdout` exactly
when the argument of `-w` is the string `-`; for every other output name it
is `merge_files` with that name as the destination.  Either call gets the
same file type, input list, append flag, IDB mode, snap length, callback and
compression type, those read off the command line. -/
theorem C4_stdout_iff_dash (env : Wiretap) (cl : CommandLine) (c : Call)
    (hc : c ∈ (original_main env cl).calls) (hm : Call.is_merge c = true) :
    ∃ out, last_optarg opt_t.w cl.getopt = some out
      ∧ (out = "-" → c = Call.merge_files_to_stdout (merge_args_of env cl))
      ∧ (out ≠ "-" → c = Call.merge_files out (merge_args_of env cl))
      ∧ ((∃ a, c = Call.merge_files_to_stdout a) ↔ out = "-") := by
  obtain ⟨-, out, hw, -, -, hcall, -⟩ := merge_reached env cl c hc hm
  refine ⟨out, hw, ?_, ?_, ?_⟩
  · intro ho
    rw [hcall, merge_call_of, if_pos ho]
  · intro ho
    rw [hcall, merge_call_of, if_neg ho]
  · rw [hcall, merge_call_of]
    by_cases ho : out = "-"
    · simp [ho]
    · simp [ho]

/-- Witness of C4: `mergecap -V -s 64 -w - a.pcap b.pcap` merges to the
standard output, with the arguments read off the command line. -/
theorem C4_stdout_iff_dash_witness :
    Call.merge_files_to_stdout
        { file_type := 2, in_filenames := ["a.pcap", "b.pcap"], in_file_count := 2,
          do_append := false, mode := idb_merge_mode.IDB_MERGE_MODE_ALL_SAME, snaplen := 64,
          cb := some { callback_func := callback_func_t.merge_callback, data := none },
          compression_type := wtap_compression_type.WTAP_UNCOMPRESSED }
      = Call.merge_files_to_stdout (merge_args_of demoWiretap cl_stdout) := by
  obtain ⟨out, hw, h1, -, -⟩ := C4_stdout_iff_dash demoWiretap cl_stdout
    (Call.merge_files_to_stdout
      { file_type := 2, in_filenames := ["a.pcap", "b.pcap"], in_file_count := 2,
        do_append := false, mode := idb_merge_mode.IDB_MERGE_MODE_ALL_SAME, snaplen := 64,
        cb := some { callback_func := callback_func_t.merge_callback, data := none },
        compression_type := wtap_compression_type.WTAP_UNCOMPRESSED })
    (by decide) rfl
  have hlast : last_optarg opt_t.w cl_stdout.getopt = some "-" := by decide
  rw [hlast] at hw
  exact h1 (Option.some.inj hw).symm

/-- Counterexample to C5 as stated: `mergecap -a -a -w out.pcapng a.pcap
b.pcap` gives `-a`, and the merge is called with `do_append = false`. -/
theorem C5_append_flag_counterexample :
    opt_given opt_t.a cl_aa.getopt = true
      ∧ Call.merge_files "out.pcapng"
          { file_type := 2, in_filenames := ["a.pcap", "b.pcap"], in_file_count := 2,
            do_append := false, mode := idb_merge_mode.IDB_MERGE_MODE_ALL_SAME, snaplen := 0,
            cb := none, compression_type := wtap_compression_type.WTAP_UNCOMPRESSED }
        ∈ (original_main demoWiretap cl_aa).calls := by
  decide

/-- C5 (amended): timestamp merge is the default and every `-a` switches
between the two: on every command line on which `original_main` calls the
merge, `do_append` is true exactly when `-a` is given an odd number of times,
so it is true for a single `-a` and false when `-a` is not given. -/
theorem C5_append_flag (env : Wiretap) (cl : CommandLine) (c : Call) (a : merge_args)
    (hc : c ∈ (original_main env cl).calls) (ha : Call.merge_args? c = some a) :
    (a.do_append = true ↔ opt_count opt_t.a cl.getopt % 2 = 1)
      ∧ (opt_count opt_t.a cl.getopt = 1 → a.do_append = true)
      ∧ (opt_given opt_t.a cl.getopt = false → a.do_append = false) := by
  have hargs := merge_args_reached env cl c a hc ha
  have hda : a.do_append = decide (opt_count opt_t.a cl.getopt % 2 = 1) := by
    rw [hargs]; rfl
  refine ⟨by rw [hda]; simp, ?_, ?_⟩
  · intro h1
    rw [hda, h1]; rfl
  · intro hng
    have h0 : opt_count opt_t.a cl.getopt = 0 := by
      unfold opt_given at hng
      unfold opt_count
      rw [List.countP_eq_zero]
      intro e he
      rw [List.any_eq_false] at hng
      exact hng e he
    rw [hda, h0]; rfl

/-- Witness of C5: `mergecap -a -w out.pcapng a.pcap b.pcap` merges with
`do_append = true`, and `-a` occurs an odd number of times. -/
theorem C5_append_flag_witness : opt_count opt_t.a cl_a.getopt % 2 = 1 :=
  (C5_append_flag demoWiretap cl_a
    (Call.merge_files "out.pcapng"
      { file_type := 2, in_filenames := ["a.pcap", "b.pcap"], in_file_count := 2,
        do_append := true, mode := idb_merge_mode.IDB_MERGE_MODE_ALL_SAME, snaplen := 0,
        cb := none, compression_type := wtap_compression_type.WTAP_UNCOMPRESSED })
    _ (by decide) rfl).1.mp rfl

/-- C6: without `-I` the merge is called with `IDB_MERGE_MODE_ALL_SAME`, and
the check on interface blocks raises no error then, whatever the output file
type supports; when `-I` names a mode and the run calls the merge, the merge
gets exactly that mode. -/
theorem C6_idb_mode_handed_to_merge (env : Wiretap) (cl : CommandLine) :
    (∀ c ∈ (original_main env cl).calls, ∀ a, Call.merge_args? c = some a →
        (opt_given opt_t.I cl.getopt = false →
          a.mode = idb_merge_mode.IDB_MERGE_MODE_ALL_SAME)
        ∧ (∀ name, last_optarg opt_t.I cl.getopt = some name →
            a.mode = env.merge_string_to_idb_merge_mode name))
      ∧ (∀ out, options_completed env cl → opt_given opt_t.I cl.getopt = false →
          last_optarg opt_t.w cl.getopt = some out → 1 ≤ input_count cl →
          env.wtap_can_write_compression_type
            (described_compression_type env cl.getopt) = true →
          (described_compression_type env cl.getopt = wtap_compression_type.WTAP_UNCOMPRESSED
            ∨ env.wtap_dump_can_compress (chosen_file_type env cl.getopt) = true) →
          merge_call_of env cl out ∈ (original_main env cl).calls
            ∧ (merge_args_of env cl).mode = idb_merge_mode.IDB_MERGE_MODE_ALL_SAME) := by
  constructor
  · intro c hc a ha
    have hargs := merge_args_reached env cl c a hc ha
    have hmode : a.mode = chosen_mode env cl.getopt := by rw [hargs]; rfl
    constructor
    · intro hng
      rw [hmode, chosen_mode, (last_optarg_none_iff _ _).mpr hng]
    · intro name hname
      rw [hmode, chosen_mode, hname]
  · intro out hdone hng hw hin h1 h2
    have hmain := original_main_merges env cl out hdone hw hin ⟨h1, h2, Or.inl hng⟩
    constructor
    · rw [hmain]; simp [clean_exit]
    · show chosen_mode env cl.getopt = _
      rw [chosen_mode, (last_optarg_none_iff _ _).mpr hng]

/-- Witness of C6: `mergecap -F pcap -w out.pcap a.pcap`, for a file type
without interface blocks, merges with `IDB_MERGE_MODE_ALL_SAME`. -/
theorem C6_idb_mode_handed_to_merge_witness :
    merge_call_of demoWiretap cl_pcap "out.pcap" ∈ (original_main demoWiretap cl_pcap).calls
      ∧ (merge_args_of demoWiretap cl_pcap).mode = idb_merge_mode.IDB_MERGE_MODE_ALL_SAME :=
  (C6_idb_mode_handed_to_merge demoWiretap cl_pcap).2 "out.pcap" (by decide) (by decide)
    (by decide) (by decide) (by decide) (Or.inl (by decide))

/-- C7: on every command line on which `original_main` calls the merge, it
returns 0 when the merge call returned true and 2 when it returned false; a
failed merge is never reported as success. -/
theorem C7_exit_status_of_merge (env : Wiretap) (cl : CommandLine) (c : Call) (r : Bool)
    (hc : c ∈ (original_main env cl).calls) (hr : Call.merge_result env c = some r) :
    (original_main env cl).exit = Exit.returned (if r then 0 else 2)
      ∧ (r = false → (original_main env cl).exit ≠ Exit.returned 0) := by
  obtain ⟨-, out, -, -, -, hcall, hmain⟩ :=
    merge_reached env cl c hc (is_merge_of_merge_result env c r hr)
  rw [hcall, merge_result_of_call] at hr
  have hr' : merge_result_of env cl out = r := Option.some.inj hr
  rw [hmain, hr']
  refine ⟨rfl, ?_⟩
  intro hf
  subst hf
  simp [clean_exit]

/-- Witness of C7: with a merge that fails, `mergecap -w out.gz a.pcap
b.pcap` returns 2. -/
theorem C7_exit_status_of_merge_witness :
    (original_main failingWiretap cl_gz).exit = Exit.returned 2 :=
  (C7_exit_status_of_merge failingWiretap cl_gz
    (Call.merge_files "out.gz"
      { file_type := 2, in_filenames := ["a.pcap", "b.pcap"], in_file_count := 2,
        do_append := false, mode := idb_merge_mode.IDB_MERGE_MODE_ALL_SAME, snaplen := 0,
        cb := none, compression_type := wtap_compression_type.WTAP_GZIP_COMPRESSED })
    false (by decide) rfl).1

theorem option_loop_snaplen (env : Wiretap) (cl : CommandLine) (h : options_completed env cl) :
    ∀ x, last_optarg opt_t.s cl.getopt = some x →
      (env.get_nonzero_uint32 x).isSome = true := by
  obtain ⟨v, hl, -⟩ := option_loop_init env cl h
  exact (option_loop_last env (fun v => v.snaplen) opt_t.s
    (fun x => (env.get_nonzero_uint32 x).getD 0)
    (fun x => (env.get_nonzero_uint32 x).isSome = true)
    (fun e v0 v1 t1 h1 =>
      ⟨(switch_body_next env e v0 v1 t1 h1).2.2.2.2.2.1,
       (switch_body_next env e v0 v1 t1 h1).2.2.2.2.2.2.1⟩)
    _ _ _ _ hl).2

/-- C8: on every command line on which `original_main` calls the merge, the
options are handed over unchanged: the input list is `argv[ws_optind]` up to
`argv[argc-1]` in that order, its count is `argc - ws_optind` and at least
1, the snap length is the value given with `-s`, or 0 without `-s`, and the
file type is the one named by `-F` when `-F` is given. -/
theorem C8_options_handed_over (env : Wiretap) (cl : CommandLine) (c : Call) (a : merge_args)
    (hc : c ∈ (original_main env cl).calls) (ha : Call.merge_args? c = some a) :
    a.in_filenames = cl.argv.drop cl.ws_optind
      ∧ (∀ i, a.in_filenames[i]? = cl.argv[cl.ws_optind + i]?)
      ∧ a.in_file_count = (cl.argv.length : Int) - (cl.ws_optind : Int)
      ∧ (a.in_filenames.length : Int) = a.in_file_count
      ∧ 1 ≤ a.in_file_count
      ∧ (∀ text, last_optarg opt_t.s cl.getopt = some text →
          env.get_nonzero_uint32 text = some a.snaplen)
      ∧ (opt_given opt_t.s cl.getopt = false → a.snaplen = 0)
      ∧ (∀ name, last_optarg opt_t.F cl.getopt = some name →
          a.file_type = env.wtap_name_to_file_type_subtype name) := by
  have hargs := merge_args_reached env cl c a hc ha
  obtain ⟨hdone, out, -, hin, -, -, -⟩ :=
    merge_reached env cl c hc (is_merge_of_merge_args c a ha)
  have hfiles : a.in_filenames = cl.argv.drop cl.ws_optind := by rw [hargs]; rfl
  have hcount : a.in_file_count = input_count cl := by rw [hargs]; rfl
  have hsnap : a.snaplen = chosen_snaplen env cl.getopt := by rw [hargs]; rfl
  have hft : a.file_type = chosen_file_type env cl.getopt := by rw [hargs]; rfl
  unfold input_count at hin hcount
  refine ⟨hfiles, ?_, hcount, ?_, by omega, ?_, ?_, ?_⟩
  · intro i
    rw [hfiles, List.getElem?_drop]
  · rw [hfiles, hcount, List.length_drop]
    omega
  · intro text htext
    have hsome := option_loop_snaplen env cl hdone text htext
    rw [hsnap, chosen_snaplen, htext]
    cases hg : env.get_nonzero_uint32 text with
    | none => rw [hg] at hsome; cases hsome
    | some n => simp [hg]
  · intro hng
    rw [hsnap, chosen_snaplen, (last_optarg_none_iff _ _).mpr hng]
  · intro name hname
    rw [hft, chosen_file_type, hname]

/-- Witness of C8: `mergecap -s 64 -F pcap -w out.pcap a.pcap b.pcap` hands
over the two input files, the snap length 64 and the file type pcap. -/
theorem C8_options_handed_over_witness :
    ["a.pcap", "b.pcap"] = cl_snap.argv.drop cl_snap.ws_optind :=
  (C8_options_handed_over demoWiretap cl_snap
    (Call.merge_files "out.pcap"
      { file_type := 1, in_filenames := ["a.pcap", "b.pcap"], in_file_count := 2,
        do_append := false, mode := idb_merge_mode.IDB_MERGE_MODE_ALL_SAME, snaplen := 64,
        cb := none, compression_type := wtap_compression_type.WTAP_UNCOMPRESSED })
    _ (by decide) rfl).1

/-- C9: without `-F` the output file type is pcapng: a merge call gets
`wtap_pcapng_file_type_subtype()`, and in a run that gets as far as the
checks, the check on compression and the check on interface blocks are made
for pcapng, so the merge is called exactly when pcapng passes both. -/
theorem C9_default_file_type (env : Wiretap) (cl : CommandLine)
    (hF : opt_given opt_t.F cl.getopt = false) :
    (∀ c ∈ (original_main env cl).calls, ∀ a, Call.merge_args? c = some a →
        a.file_type = env.wtap_pcapng_file_type_subtype)
      ∧ (∀ out, options_completed env cl → last_optarg opt_t.w cl.getopt = some out →
          1 ≤ input_count cl →
          env.wtap_can_write_compression_type
            (described_compression_type env cl.getopt) = true →
          (merge_invoked (original_main env cl) = true ↔
            (described_compression_type env cl.getopt
                = wtap_compression_type.WTAP_UNCOMPRESSED
              ∨ env.wtap_dump_can_compress env.wtap_pcapng_file_type_subtype = true)
            ∧ (opt_given opt_t.I cl.getopt = false
              ∨ env.wtap_file_type_subtype_supports_block env.wtap_pcapng_file_type_subtype
                  wtap_block_type_t.WTAP_BLOCK_IF_ID_AND_INFO
                ≠ block_support_t.BLOCK_NOT_SUPPORTED))) := by
  have hft : chosen_file_type env cl.getopt = env.wtap_pcapng_file_type_subtype := by
    rw [chosen_file_type, (last_optarg_none_iff _ _).mpr hF]
  constructor
  · intro c hc a ha
    have hargs := merge_args_reached env cl c a hc ha
    rw [hargs]
    exact hft
  · intro out hdone hw hin h1
    rw [← hft]
    constructor
    · intro hinv
      unfold merge_invoked at hinv
      rw [List.any_eq_true] at hinv
      obtain ⟨c, hc, hm⟩ := hinv
      obtain ⟨-, -, -, -, ⟨-, h2, h3⟩, -, -⟩ := merge_reached env cl c hc hm
      exact ⟨h2, h3⟩
    · rintro ⟨h2, h3⟩
      rw [original_main_merges env cl out hdone hw hin ⟨h1, h2, h3⟩]
      unfold merge_invoked clean_exit merge_call_of
      by_cases ho : out = "-"
      · simp [ho, Call.is_merge]
      · simp [ho, Call.is_merge]

/-- Witness of C9: `mergecap -w out.gz a.pcap b.pcap` has no `-F`, and its
merge call gets the file type pcapng. -/
theorem C9_default_file_type_witness :
    (2 : Int) = demoWiretap.wtap_pcapng_file_type_subtype :=
  (C9_default_file_type demoWiretap cl_gz (by decide)).1
    (Call.merge_files "out.gz"
      { file_type := 2, in_filenames := ["a.pcap", "b.pcap"], in_file_count := 2,
        do_append := false, mode := idb_merge_mode.IDB_MERGE_MODE_ALL_SAME, snaplen := 0,
        cb := none, compression_type := wtap_compression_type.WTAP_GZIP_COMPRESSED })
    (by decide) _ rfl

/-- Counterexample to C10 as stated: `mergecap -h` has no `-w`, and the run
returns 0. -/
theorem C10_needs_output_and_input_counterexample :
    opt_given opt_t.w cl_help.getopt = false
      ∧ (original_main demoWiretap cl_help).exit = Exit.returned 0 := by
  decide

/-- C10 (amended): `original_main` calls the merge only if an output name was
set with `-w` and at least one input file is left after the options.  On
every command line whose option processing runs to completion, a run without
`-w` returns 2 without merging, with or without input files, and a run with
`-w` and no input file returns the non-zero status 1 without merging. -/
theorem C10_needs_output_and_input (env : Wiretap) (cl : CommandLine) :
    (merge_invoked (original_main env cl) = true →
        opt_given opt_t.w cl.getopt = true ∧ 1 ≤ input_count cl)
      ∧ (options_completed env cl → opt_given opt_t.w cl.getopt = false →
          (original_main env cl).exit = Exit.returned 2
            ∧ merge_invoked (original_main env cl) = false)
      ∧ (options_completed env cl → opt_given opt_t.w cl.getopt = true →
          input_count cl < 1 →
          (original_main env cl).exit = Exit.returned 1
            ∧ merge_invoked (original_main env cl) = false) := by
  refine ⟨?_, ?_, ?_⟩
  · intro hinv
    unfold merge_invoked at hinv
    rw [List.any_eq_true] at hinv
    obtain ⟨c, hc, hm⟩ := hinv
    obtain ⟨-, out, hw, hin, -, -, -⟩ := merge_reached env cl c hc hm
    refine ⟨?_, hin⟩
    by_contra hng
    have hnone := (last_optarg_none_iff opt_t.w cl.getopt).mpr (by simpa using hng)
    rw [hnone] at hw
    cases hw
  · intro hdone hng
    rw [original_main_completed env cl hdone, (last_optarg_none_iff _ _).mpr hng]
    exact ⟨rfl, merge_invoked_clean_exit_false _ _ (by simp [Call.is_merge])⟩
  · intro hdone hg hin
    rw [original_main_completed env cl hdone]
    cases hw : last_optarg opt_t.w cl.getopt with
    | none =>
      rw [(last_optarg_none_iff _ _).mp hw] at hg
      cases hg
    | some out =>
      simp only []
      rw [if_pos hin]
      exact ⟨rfl, by simp [merge_invoked, Call.is_merge]⟩

/-- Witness of C10: `mergecap a.pcap b.pcap` returns 2 without merging. -/
theorem C10_needs_output_and_input_witness :
    (original_main demoWiretap cl_no_w).exit = Exit.returned 2
      ∧ merge_invoked (original_main demoWiretap cl_no_w) = false :=
  (C10_needs_output_and_input demoWiretap cl_no_w).2.1 (by decide) (by decide)

/-! ## Facts about `merge_callback` -/

theorem frame_type_loop_length (f0 : merge_in_file_t) (rest : List merge_in_file_t) (k : Nat) :
    (frame_type_loop f0 rest k).length ≤ 1 := by
  induction rest generalizing k with
  | nil => simp [frame_type_loop]
  | cons f fs ih =>
    simp only [frame_type_loop]
    split
    · simp
    · exact ih (k + 1)

theorem frame_type_loop_nil_iff (f0 : merge_in_file_t) (rest : List merge_in_file_t) (k : Nat) :
    frame_type_loop f0 rest k = [] ↔ ∀ f ∈ rest, f.wtap_file_encap = f0.wtap_file_encap := by
  induction rest generalizing k with
  | nil => simp [frame_type_loop]
  | cons f fs ih =>
    simp only [frame_type_loop, List.mem_cons, forall_eq_or_imp]
    by_cases h : f0.wtap_file_encap = f.wtap_file_encap
    · simp [h, ih (k + 1)]
    · simp [h, Ne.symm h]

/-- A message of the loop names the first entry of `rest` whose type differs
from that of `f0`. -/
theorem frame_type_loop_mem (f0 : merge_in_file_t) (rest : List merge_in_file_t) (k : Nat)
    (d : Diag) (hd : d ∈ frame_type_loop f0 rest k) :
    ∃ j f, rest[j]? = some f ∧ f.wtap_file_encap ≠ f0.wtap_file_encap
      ∧ d = Diag.multiple_encaps (k + j) f0.filename f0.wtap_file_encap f.filename
          f.wtap_file_encap
      ∧ ∀ j' f', j' < j → rest[j']? = some f' → f'.wtap_file_encap = f0.wtap_file_encap := by
  induction rest generalizing k with
  | nil => simp [frame_type_loop] at hd
  | cons f fs ih =>
    simp only [frame_type_loop] at hd
    by_cases h : f0.wtap_file_encap = f.wtap_file_encap
    · simp only [h, ne_eq, not_true_eq_false, if_false] at hd
      obtain ⟨j, g, hj, hne, hdj, hfirst⟩ := ih (k + 1) hd
      refine ⟨j + 1, g, by simpa using hj, hne, ?_, ?_⟩
      · rw [hdj]; congr 1; omega
      · intro j' f' hlt hj'
        cases j' with
        | zero =>
          simp only [List.getElem?_cons_zero, Option.some.injEq] at hj'
          rw [← hj']; exact h.symm
        | succ j'' =>
          simp only [List.getElem?_cons_succ] at hj'
          exact hfirst j'' f' (by omega) hj'
    · simp only [ne_eq, h, not_false_eq_true, if_true, List.mem_singleton] at hd
      refine ⟨0, f, by simp, Ne.symm h, by simpa using hd, ?_⟩
      intro j' f' hlt
      omega

theorem encap_of_zero (f0 : merge_in_file_t) (rest : List merge_in_file_t) :
    encap_of (f0 :: rest) 0 = some f0.wtap_file_encap := by
  simp [encap_of]

theorem encap_of_succ (f0 : merge_in_file_t) (rest : List merge_in_file_t) (b : Nat) :
    encap_of (f0 :: rest) (b + 1) = (rest[b]?).map (fun f => f.wtap_file_encap) := by
  simp [encap_of]

theorem encap_of_all_same (f0 : merge_in_file_t) (rest : List merge_in_file_t)
    (h : ∀ f ∈ rest, f.wtap_file_encap = f0.wtap_file_encap) (a : Nat)
    (ha : a < (f0 :: rest).length) :
    encap_of (f0 :: rest) a = some f0.wtap_file_encap := by
  cases a with
  | zero => exact encap_of_zero f0 rest
  | succ a' =>
    rw [encap_of_succ]
    have ha' : a' < rest.length := by simpa using ha
    rw [List.getElem?_eq_getElem ha']
    simp [h _ (List.getElem_mem ha')]

/-- C11: for the event `MERGE_EVENT_FRAME_TYPE_SELECTED` with `num` equal to
`WTAP_ENCAP_PER_PACKET` and at least one input, `merge_callback` returns, and
it writes the message about multiple frame encapsulation types if and only if
some pair of inputs has differing types; it writes it at most once; the
message names input 0 and the lowest input `i` whose type differs from that
of input 0, and `(0, i)` is the first differing pair in the lexicographic
order of index pairs.  For another `num` only the selected type is written. -/
theorem C11_multiple_encaps_diagnostic (in_files : List merge_in_file_t)
    (hn : 1 ≤ in_files.length) :
    ∃ out, merge_callback merge_event.MERGE_EVENT_FRAME_TYPE_SELECTED WTAP_ENCAP_PER_PACKET
          in_files = some (out, false)
      ∧ ((∃ d ∈ out, Diag.is_multiple_encaps d = true) ↔ ∃ a b, differing_pair in_files a b)
      ∧ out.countP Diag.is_multiple_encaps ≤ 1
      ∧ (∀ i n0 t0 ni ti, Diag.multiple_encaps i n0 t0 ni ti ∈ out →
          differing_pair in_files 0 i
          ∧ (∀ a b, differing_pair in_files a b → 0 < a ∨ i ≤ b)
          ∧ (in_files[0]?).map (fun f => f.filename) = some n0
          ∧ encap_of in_files 0 = some t0
          ∧ (in_files[i]?).map (fun f => f.filename) = some ni
          ∧ encap_of in_files i = some ti)
      ∧ (∀ num, num ≠ WTAP_ENCAP_PER_PACKET →
          merge_callback merge_event.MERGE_EVENT_FRAME_TYPE_SELECTED num in_files
            = some ([Diag.selected_frame_type num], false)) := by
  cases in_files with
  | nil => simp at hn
  | cons f0 rest =>
    refine ⟨frame_type_loop f0 rest 1 ++ [Diag.selected_frame_type WTAP_ENCAP_PER_PACKET],
      by simp [merge_callback], ?_, ?_, ?_, ?_⟩
    · constructor
      · rintro ⟨d, hd, hm⟩
        simp only [List.mem_append, List.mem_singleton] at hd
        rcases hd with hd | rfl
        · obtain ⟨j, f, hj, hne, -, -⟩ := frame_type_loop_mem f0 rest 1 d hd
          have hjlt : j < rest.length := by
            by_contra hge
            rw [List.getElem?_eq_none (by omega)] at hj
            cases hj
          refine ⟨0, j + 1, by omega, by simpa using hjlt, ?_⟩
          rw [encap_of_zero, encap_of_succ, hj]
          simp only [Option.map_some', ne_eq, Option.some.injEq]
          exact Ne.symm hne
        · simp [Diag.is_multiple_encaps] at hm
      · rintro ⟨a, b, hab, hb, hne⟩
        by_cases hnil : frame_type_loop f0 rest 1 = []
        · have hall := (frame_type_loop_nil_iff f0 rest 1).mp hnil
          exact absurd (by
            rw [encap_of_all_same f0 rest hall a (by omega),
              encap_of_all_same f0 rest hall b hb]) hne
        · obtain ⟨d, hd⟩ := List.exists_mem_of_ne_nil _ hnil
          obtain ⟨j, f, -, -, hdj, -⟩ := frame_type_loop_mem f0 rest 1 d hd
          exact ⟨d, by simp [hd], by rw [hdj]; rfl⟩
    · rw [List.countP_append]
      have h1 := frame_type_loop_length f0 rest 1
      have h2 : List.countP Diag.is_multiple_encaps (frame_type_loop f0 rest 1)
          ≤ (frame_type_loop f0 rest 1).length := List.countP_le_length _
      have h3 : List.countP Diag.is_multiple_encaps
          [Diag.selected_frame_type WTAP_ENCAP_PER_PACKET] = 0 := by
        simp [Diag.is_multiple_encaps]
      omega
    · intro i n0 t0 ni ti hd
      simp only [List.mem_append, List.mem_singleton] at hd
      rcases hd with hd | hd
      swap
      · cases hd
      obtain ⟨j, f, hj, hne, hdj, hfirst⟩ := frame_type_loop_mem f0 rest 1 _ hd
      simp only [Diag.multiple_encaps.injEq] at hdj
      obtain ⟨rfl, rfl, rfl, rfl, rfl⟩ := hdj
      have hjlt : j < rest.length := by
        by_contra hge
        rw [List.getElem?_eq_none (by omega)] at hj
        cases hj
      have hidx : 1 + j = j + 1 := by omega
      refine ⟨⟨by omega, by simp; omega, ?_⟩, ?_, by simp, encap_of_zero f0 rest, ?_, ?_⟩
      · rw [hidx, encap_of_zero, encap_of_succ, hj]
        simp only [Option.map_some', ne_eq, Option.some.injEq]
        exact Ne.symm hne
      · rintro a b ⟨hab, hb, hdiff⟩
        by_cases ha : 0 < a
        · exact Or.inl ha
        · right
          have ha0 : a = 0 := by omega
          subst ha0
          by_contra hlt
          obtain ⟨b', rfl⟩ : ∃ b', b = b' + 1 := ⟨b - 1, by omega⟩
          have hb' : b' < rest.length := by simpa using hb
          have hsame := hfirst b' rest[b'] (by omega) (List.getElem?_eq_getElem hb')
          apply hdiff
          rw [encap_of_zero, encap_of_succ, List.getElem?_eq_getElem hb']
          simp [hsame]
      · rw [hidx]; simp [hj]
      · rw [hidx, encap_of_succ, hj]; rfl
    · intro num hnum
      simp [merge_callback, hnum]

/-- Witness of C11: for three inputs of types 1, 1 and 7 the message names
inputs 0 and 2, which differ. -/
theorem C11_multiple_encaps_diagnostic_witness :
    1 ≤ demo_in_files.length ∧ differing_pair demo_in_files 0 2 := by
  obtain ⟨out, hout, -, -, hnamed, -⟩ :=
    C11_multiple_encaps_diagnostic demo_in_files (by decide)
  have hval : merge_callback merge_event.MERGE_EVENT_FRAME_TYPE_SELECTED WTAP_ENCAP_PER_PACKET
      demo_in_files
      = some ([Diag.multiple_encaps 2 "a.pcap" 1 "c.pcap" 7,
          Diag.selected_frame_type WTAP_ENCAP_PER_PACKET], false) := by decide
  rw [hval] at hout
  simp only [Option.some.injEq, Prod.mk.injEq, and_true] at hout
  exact ⟨by decide, (hnamed 2 "a.pcap" 1 "c.pcap" 7 (by rw [← hout]; simp)).1⟩

/-- Counterexample to C12 as stated: for `MERGE_EVENT_FRAME_TYPE_SELECTED`
with `num` equal to `WTAP_ENCAP_PER_PACKET` and an input list without
entries, `merge_callback` reads `in_files[0]` outside the array and does not
get to its `return false`. -/
theorem C12_never_cancels_counterexample :
    merge_callback merge_event.MERGE_EVENT_FRAME_TYPE_SELECTED WTAP_ENCAP_PER_PACKET []
      = none := by
  decide

/-- C12 (amended): `merge_callback` never returns true, and it returns false
for every event value, the values outside the five known events included,
every `num` and every input list with at least one entry; for a list without
entries it returns false too, except for `MERGE_EVENT_FRAME_TYPE_SELECTED`
with `num` equal to `WTAP_ENCAP_PER_PACKET`. -/
theorem C12_never_cancels (event : merge_event) (num : Int) (in_files : List merge_in_file_t) :
    (∀ out, merge_callback event num in_files ≠ some (out, true))
      ∧ (in_files ≠ [] ∨ event ≠ merge_event.MERGE_EVENT_FRAME_TYPE_SELECTED
            ∨ num ≠ WTAP_ENCAP_PER_PACKET →
          ∃ out, merge_callback event num in_files = some (out, false)) := by
  constructor
  · intro out
    cases event <;> simp only [merge_callback]
    case MERGE_EVENT_FRAME_TYPE_SELECTED =>
      split
      · cases in_files <;> simp
      · simp
    all_goals simp
  · intro h
    cases event <;> simp only [merge_callback]
    case MERGE_EVENT_FRAME_TYPE_SELECTED =>
      by_cases hnum : num = WTAP_ENCAP_PER_PACKET
      · cases in_files with
        | nil => simp [hnum] at h
        | cons f0 rest => simp [hnum]
      · simp [hnum]
    all_goals simp

/-- Witness of C12: for three inputs and an event value outside the known
five, `merge_callback` writes nothing and returns false. -/
theorem C12_never_cancels_witness :
    ∃ out, merge_callback (merge_event.other 9) 0 demo_in_files = some (out, false) :=
  (C12_never_cancels (merge_event.other 9) 0 demo_in_files).2 (Or.inl (by decide))

/-- C13: on every command line on which `original_main` calls the merge, the
callback handed over is the structure with `merge_callback` and a `NULL` data
pointer when `-V` is given, and `NULL` when `-V` is not given. -/
theorem C13_callback_iff_verbose (env : Wiretap) (cl : CommandLine) (c : Call) (a : merge_args)
    (hc : c ∈ (original_main env cl).calls) (ha : Call.merge_args? c = some a) :
    (opt_given opt_t.V cl.getopt = true →
        a.cb = some { callback_func := callback_func_t.merge_callback, data := none })
      ∧ (opt_given opt_t.V cl.getopt = false → a.cb = none)
      ∧ (∀ cb, a.cb = some cb →
          callback_func_t.call cb.callback_func = merge_callback ∧ cb.data = none
            ∧ opt_given opt_t.V cl.getopt = true) := by
  have hargs := merge_args_reached env cl c a hc ha
  have hcb : a.cb = if opt_given opt_t.V cl.getopt then
      some { callback_func := callback_func_t.merge_callback, data := none } else none := by
    rw [hargs]; rfl
  refine ⟨?_, ?_, ?_⟩
  · intro hV; rw [hcb, hV]; rfl
  · intro hV; rw [hcb, hV]; rfl
  · intro cb hsome
    rw [hcb] at hsome
    by_cases hV : opt_given opt_t.V cl.getopt = true
    · rw [if_pos hV] at hsome
      have := Option.some.inj hsome
      subst this
      exact ⟨rfl, rfl, hV⟩
    · rw [if_neg hV] at hsome
      cases hsome

/-- Witness of C13: `mergecap -V -s 64 -w - a.pcap b.pcap` hands over the
callback structure, and `-V` is given. -/
theorem C13_callback_iff_verbose_witness : opt_given opt_t.V cl_stdout.getopt = true :=
  ((C13_callback_iff_verbose demoWiretap cl_stdout
    (Call.merge_files_to_stdout
      { file_type := 2, in_filenames := ["a.pcap", "b.pcap"], in_file_count := 2,
        do_append := false, mode := idb_merge_mode.IDB_MERGE_MODE_ALL_SAME, snaplen := 64,
        cb := some { callback_func := callback_func_t.merge_callback, data := none },
        compression_type := wtap_compression_type.WTAP_UNCOMPRESSED })
    _ (by decide) rfl).2.2 _ rfl).2.2

/-! ## Facts about the scanning loops of `parse_command_line_from_file` -/

theorem dropWhile_head_false {α : Type} (q : α → Bool) (l : List α) (b : α) (rest : List α)
    (h : l.dropWhile q = b :: rest) : q b = false := by
  induction l with
  | nil => simp at h
  | cons x xs ih =>
    rw [List.dropWhile_cons] at h
    by_cases hx : q x = true
    · rw [if_pos hx] at h; exact ih h
    · rw [if_neg hx] at h
      simp only [List.cons.injEq] at h
      rw [← h.1]; simpa using hx

theorem skip_token_length_lt (p : List Char) (h : skip_blanks p ≠ []) :
    (skip_token (skip_blanks p)).length < p.length := by
  have h1 : (skip_blanks p).length ≤ p.length := (List.dropWhile_sublist _).length_le
  cases hq : skip_blanks p with
  | nil => exact absurd hq h
  | cons c q =>
    have hc : is_blank c = false := dropWhile_head_false is_blank p c q hq
    rw [hq] at h1
    unfold skip_token
    simp only [List.dropWhile_cons, hc, Bool.not_false, if_true]
    have h2 : (q.dropWhile (fun c => !is_blank c)).length ≤ q.length :=
      (List.dropWhile_sublist _).length_le
    simp only [List.length_cons] at h1
    omega

/-- The pieces between blanks: the first piece is the token at the start,
the other pieces are those of the text after the blank that ends it. -/
theorem splitOnP_is_blank (xs : List Char) :
    xs.splitOnP is_blank
      = token_at xs ::
          (match skip_token xs with
           | [] => []
           | _ :: rest => rest.splitOnP is_blank) := by
  induction xs with
  | nil => simp [token_at, skip_token]
  | cons x xs ih =>
    rw [List.splitOnP_cons]
    by_cases hx : is_blank x = true
    · simp [hx, token_at, skip_token]
    · have hx' : is_blank x = false := by simpa using hx
      rw [if_neg hx, ih]
      simp [token_at, skip_token, hx']

theorem runs_nil : runs [] = [] := by
  simp [runs]

theorem runs_cons_blank (c : Char) (cs : List Char) (hc : is_blank c = true) :
    runs (c :: cs) = runs cs := by
  simp [runs, List.splitOnP_cons, hc]

theorem runs_skip_blanks (p : List Char) : runs p = runs (skip_blanks p) := by
  induction p with
  | nil => simp [skip_blanks]
  | cons c cs ih =>
    by_cases hc : is_blank c = true
    · rw [runs_cons_blank c cs hc, ih]
      simp [skip_blanks, hc]
    · simp [skip_blanks, hc]

theorem runs_token (q : List Char) (c : Char) (cs : List Char) (hq : q = c :: cs)
    (hc : is_blank c = false) :
    runs q = token_at q :: runs (skip_token q) := by
  have htok : token_at q ≠ [] := by
    rw [hq]; simp [token_at, hc]
  unfold runs
  rw [splitOnP_is_blank q]
  rw [List.filter_cons_of_pos (by
    cases ht : token_at q with
    | nil => exact absurd ht htok
    | cons a as => simp)]
  congr 1
  cases hs : skip_token q with
  | nil => simp
  | cons b rest =>
    have hb : is_blank b = true := by
      have := dropWhile_head_false (fun c => !is_blank c) q b rest hs
      simpa using this
    simp [List.splitOnP_cons, hb]

theorem runs_of_skip_blanks (p : List Char) (h : skip_blanks p ≠ []) :
    runs p = token_at (skip_blanks p) :: runs (skip_token (skip_blanks p)) := by
  rw [runs_skip_blanks p]
  cases hq : skip_blanks p with
  | nil => exact absurd hq h
  | cons c cs =>
    exact runs_token (c :: cs) c cs rfl (dropWhile_head_false is_blank p c cs hq)

theorem runs_of_skip_blanks_nil (p : List Char) (h : skip_blanks p = []) : runs p = [] := by
  rw [runs_skip_blanks p, h, runs_nil]

/-- The counting loop adds the number of runs to `arg_count`. -/
theorem count_args_eq (p : List Char) (n : Nat) : count_args p n = n + (runs p).length := by
  generalize hlen : p.length = k
  induction k using Nat.strong_induction_on generalizing p n with
  | _ k ih =>
    rw [count_args]
    by_cases hp : p = []
    · simp [hp, runs_nil]
    · rw [if_neg hp]
      by_cases hs : skip_blanks p = []
      · rw [dif_pos hs, runs_of_skip_blanks_nil p hs]; simp
      · rw [dif_neg hs, runs_of_skip_blanks p hs]
        rw [ih _ (by rw [← hlen]; exact skip_token_length_lt p hs) _ _ rfl]
        simp only [List.length_cons]
        omega

theorem set_length_append_cons {α : Type} (pre : List α) (m x : α) (rest : List α) :
    (pre ++ m :: rest).set pre.length x = pre ++ x :: rest := by
  induction pre with
  | nil => simp
  | cons a as ih => simp [ih]

/-- The filling loop writes the runs into the slots from `i` on. -/
theorem fill_args_eq (n : Nat) (p : List Char) (pre mid post : List argv_slot)
    (hmid : mid.length = (runs p).length) (hn : pre.length + mid.length = n) :
    fill_args n p pre.length (pre ++ mid ++ post)
      = pre ++ (runs p).map argv_slot.str ++ post := by
  generalize hlen : p.length = k
  induction k using Nat.strong_induction_on generalizing p pre mid with
  | _ k ih =>
    rw [fill_args]
    by_cases hp : p = []
    · have hm : mid = [] := by
        rw [hp, runs_nil] at hmid
        exact List.length_eq_zero.mp hmid
      simp [hp, hm, runs_nil]
    · by_cases hi : pre.length < n
      swap
      · have hm0 : mid.length = 0 := by omega
        have hm : mid = [] := List.length_eq_zero.mp hm0
        have hr : runs p = [] := List.length_eq_zero.mp (by rw [← hmid, hm0])
        simp [hi, hm, hr]
      · rw [if_neg (by simp [hp, hi])]
        by_cases hs : skip_blanks p = []
        · have hr := runs_of_skip_blanks_nil p hs
          have hm : mid = [] := by
            rw [hr] at hmid
            exact List.length_eq_zero.mp hmid
          rw [dif_pos hs]
          simp [hm, hr]
        · rw [dif_neg hs]
          have hr := runs_of_skip_blanks p hs
          rw [hr] at hmid ⊢
          cases mid with
          | nil => simp at hmid
          | cons m mid' =>
            have hset : (pre ++ m :: mid' ++ post).set pre.length
                (argv_slot.str (token_at (skip_blanks p)))
                = (pre ++ [argv_slot.str (token_at (skip_blanks p))]) ++ mid' ++ post := by
              rw [List.append_assoc, List.cons_append, set_length_append_cons]
              simp
            rw [hset]
            have hlen' : (pre ++ [argv_slot.str (token_at (skip_blanks p))]).length
                = pre.length + 1 := by simp
            rw [← hlen']
            rw [ih _ (by rw [← hlen]; exact skip_token_length_lt p hs) _ _ _
              (by simpa using hmid) (by simp at hn ⊢; omega) rfl]
            simp

theorem takeWhile_takeWhile {α : Type} (q r : α → Bool) (l : List α) :
    (l.takeWhile q).takeWhile r = l.takeWhile (fun x => q x && r x) := by
  induction l with
  | nil => simp
  | cons x xs ih =>
    by_cases hq : q x = true
    · by_cases hr : r x = true
      · simp [List.takeWhile_cons, hq, hr, ih]
      · simp [List.takeWhile_cons, hq, hr]
    · simp [List.takeWhile_cons, hq]

theorem buffer_eq_first_line (content : List Char) :
    cut_at (cut_at ((content.take 1023).takeWhile (fun x => decide (x ≠ NUL))) '\n') '\r'
      = first_line content := by
  unfold cut_at first_line
  rw [takeWhile_takeWhile, takeWhile_takeWhile]
  congr 1
  funext x
  by_cases h0 : x = NUL <;> by_cases h1 : x = '\n' <;> by_cases h2 : x = '\r' <;>
    simp [h0, h1, h2]

theorem runs_of_all_blank (l : List Char) (h : ∀ c ∈ l, is_blank c = true) : runs l = [] := by
  induction l with
  | nil => exact runs_nil
  | cons c cs ih =>
    rw [runs_cons_blank c cs (h c (List.mem_cons_self c cs))]
    exact ih (fun x hx => h x (List.mem_cons_of_mem c hx))

/-- The result of `parse_command_line_from_file` on a file with at least
one byte. -/
theorem parse_command_line_from_file_some (content program_name : List Char)
    (h : content ≠ []) :
    parse_command_line_from_file (some content) program_name
      = (0, some (1 + (runs (first_line content)).length,
          argv_slot.str program_name
            :: ((runs (first_line content)).map argv_slot.str ++ [argv_slot.null]))) := by
  have hread : (content.take 1023).length ≠ 0 := by
    cases content with
    | nil => exact absurd rfl h
    | cons c cs => simp
  unfold parse_command_line_from_file
  simp only [hread, if_false, buffer_eq_first_line, count_args_eq]
  generalize hk : (runs (first_line content)).length = k
  have hrep : (List.replicate (1 + k + 1) argv_slot.unassigned).set 0
      (argv_slot.str program_name)
      = [argv_slot.str program_name] ++ List.replicate k argv_slot.unassigned
          ++ [argv_slot.unassigned] := by
    rw [List.replicate_succ', show 1 + k = k + 1 by omega, List.replicate_succ]
    simp
  rw [hrep]
  have hfill := fill_args_eq (1 + k) (first_line content) [argv_slot.str program_name]
    (List.replicate k argv_slot.unassigned) [argv_slot.unassigned]
    (by simp [hk]) (by simp)
  simp only [List.length_singleton] at hfill
  rw [hfill]
  have hidx : 1 + k
      = ([argv_slot.str program_name]
          ++ (runs (first_line content)).map argv_slot.str).length := by
    simp [hk]; omega
  have hset := set_length_append_cons
    ([argv_slot.str program_name] ++ (runs (first_line content)).map argv_slot.str)
    argv_slot.unassigned argv_slot.null []
  rw [← hidx] at hset
  rw [hset]
  simp

/-- C17: on every file that can be opened and holds at least one byte,
`parse_command_line_from_file` returns 0 and gives the tokens of the first
line: with `L` the longest prefix of the first 1023 bytes without NUL,
newline and carriage return, `new_argc` is 1 plus the number of maximal runs
of bytes of `L` other than space and tab, `new_argv[0]` is `program_name`,
the next slots hold the runs from left to right, and `new_argv[new_argc]` is
`NULL`; no slot below `new_argc` is left unassigned. -/
theorem C17_tokenisation (content program_name : List Char) (h : content ≠ []) :
    ∃ new_argc new_argv,
      parse_command_line_from_file (some content) program_name
        = (0, some (new_argc, new_argv))
      ∧ new_argc = 1 + (runs (first_line content)).length
      ∧ new_argv = argv_slot.str program_name
          :: ((runs (first_line content)).map argv_slot.str ++ [argv_slot.null])
      ∧ new_argv[0]? = some (argv_slot.str program_name)
      ∧ (∀ i, 1 ≤ i → i < new_argc →
          new_argv[i]? = ((runs (first_line content))[i - 1]?).map argv_slot.str)
      ∧ new_argv[new_argc]? = some argv_slot.null
      ∧ (∀ i, i < new_argc → new_argv[i]? ≠ some argv_slot.unassigned
          ∧ new_argv[i]? ≠ none) := by
  refine ⟨_, _, parse_command_line_from_file_some content program_name h, rfl, rfl, by simp,
    ?_, ?_, ?_⟩
  · intro i h1 hi
    obtain ⟨j, rfl⟩ : ∃ j, i = j + 1 := ⟨i - 1, by omega⟩
    have hj : j < ((runs (first_line content)).map argv_slot.str).length := by
      simp; omega
    simp only [List.getElem?_cons_succ, Nat.add_sub_cancel]
    rw [List.getElem?_append_left hj]
    simp
  · have hlen : 1 + (runs (first_line content)).length
        = ((runs (first_line content)).map argv_slot.str).length + 1 := by
      simp; omega
    rw [hlen, List.getElem?_cons_succ]
    rw [List.getElem?_append_right (le_refl _)]
    simp
  · intro i hi
    cases i with
    | zero => simp
    | succ j =>
      have hj : j < ((runs (first_line content)).map argv_slot.str).length := by
        simp; omega
      simp only [List.getElem?_cons_succ]
      rw [List.getElem?_append_left hj]
      simp only [List.getElem?_map]
      have hj' : j < (runs (first_line content)).length := by omega
      rw [List.getElem?_eq_getElem hj']
      simp

/-- Witness of C17: the file `-w out.pcap a.pcap  b.pcap` with a second
line gives five arguments. -/
theorem C17_tokenisation_witness :
    parse_command_line_from_file (some demo_file) demo_program_name
      = (0, some (5,
          [argv_slot.str "mergecap".toList, argv_slot.str "-w".toList,
           argv_slot.str "out.pcap".toList, argv_slot.str "a.pcap".toList,
           argv_slot.str "b.pcap".toList, argv_slot.null])) := by
  obtain ⟨new_argc, new_argv, hparse, hc, hv, -⟩ :=
    C17_tokenisation demo_file demo_program_name (by decide)
  have hruns : runs (first_line demo_file)
      = ["-w".toList, "out.pcap".toList, "a.pcap".toList, "b.pcap".toList] := by decide
  rw [hparse, hc, hv, hruns]
  rfl

/-- C18: `parse_command_line_from_file` returns -1 if and only if the file
cannot be opened or zero bytes are read from it; with at least one byte it
returns 0, and for a file whose first line holds only blanks, or that holds
only a newline, `new_argc` is 1 and the array holds the program name and
`NULL`. -/
theorem C18_failure_iff_unreadable_or_empty (file : Option (List Char))
    (program_name : List Char) :
    ((parse_command_line_from_file file program_name).1 = -1
        ↔ file = none ∨ file = some [])
      ∧ (∀ content, file = some content → content ≠ [] →
          (parse_command_line_from_file file program_name).1 = 0)
      ∧ (∀ content, file = some content → content ≠ [] →
          (∀ c ∈ first_line content, is_blank c = true) →
          parse_command_line_from_file file program_name
            = (0, some (1, [argv_slot.str program_name, argv_slot.null]))) := by
  refine ⟨?_, ?_, ?_⟩
  · cases file with
    | none => simp [parse_command_line_from_file]
    | some content =>
      by_cases hc : content = []
      · subst hc
        simp [parse_command_line_from_file]
      · rw [parse_command_line_from_file_some content program_name hc]
        simp [hc]
  · intro content hfile hc
    rw [hfile, parse_command_line_from_file_some content program_name hc]
  · intro content hfile hc hblank
    rw [hfile, parse_command_line_from_file_some content program_name hc,
      runs_of_all_blank _ hblank]
    rfl

/-- Witness of C18: a file that holds only a newline gives `new_argc = 1`
with just the program name. -/
theorem C18_failure_iff_unreadable_or_empty_witness :
    parse_command_line_from_file (some ['\n']) demo_program_name
      = (0, some (1, [argv_slot.str demo_program_name, argv_slot.null])) :=
  (C18_failure_iff_unreadable_or_empty (some ['\n']) demo_program_name).2.2 ['\n'] rfl
    (by decide) (by decide)

/-! ## Runs that stop at an option -/

theorem option_loop_append (env : Wiretap) (pre rest : List getopt_result) (v0 : Vars)
    (hpre : pre.all (option_accepted env) = true) :
    ∃ v1, option_loop env pre v0 = (Flow.next, v1, [])
      ∧ option_loop env (pre ++ rest) v0 = option_loop env rest v1 := by
  induction pre generalizing v0 with
  | nil => exact ⟨v0, rfl, rfl⟩
  | cons e es ih =>
    simp only [List.all_cons, Bool.and_eq_true] at hpre
    have hflow := (switch_body_flow env e v0).mpr hpre.1
    rcases hsb : switch_body env e v0 with ⟨f1, v1, t1⟩
    rw [hsb] at hflow
    simp only at hflow
    subst hflow
    have ht1 := (switch_body_next env e v0 v1 t1 hsb).1
    subst ht1
    obtain ⟨v2, h1, h2⟩ := ih v1 hpre.2
    refine ⟨v2, ?_, ?_⟩
    · simp only [option_loop, hsb, h1, List.nil_append]
    · show option_loop env (e :: (es ++ rest)) v0 = option_loop env rest v2
      simp only [option_loop, hsb, List.nil_append]
      rw [h2]

theorem option_accepted_of_invalid (env : Wiretap) (e : getopt_result)
    (h : invalid_option_value env e) : option_accepted env e = false := by
  obtain ⟨o, arg, oo⟩ := e
  rcases h with ⟨ho, hv⟩ | ⟨ho, hv⟩ | ⟨ho, hv⟩
  · simp only at ho hv
    subst ho
    simp only [option_accepted, decide_eq_false_iff_not, not_le]
    exact hv
  · simp only at ho hv
    subst ho
    simp [option_accepted, hv]
  · simp only at ho hv
    subst ho
    simp [option_accepted, hv]

/-- The slip of line 334 on a concrete command line: `mergecap --compress
bogus -w out.pcapng a.pcap` reports the unknown compression type and
returns 0. -/
theorem compress_unknown_returns_zero :
    invalid_option_value demoWiretap (got opt_t.LONGOPT_COMPRESS "bogus")
      ∧ (original_main demoWiretap cl_bogus_compress).exit = Exit.returned 0
      ∧ merge_invoked (original_main demoWiretap cl_bogus_compress) = false := by
  decide

/-- Counterexample to C15 as stated: in `mergecap -h -F bogus` the option
`-F` names an unknown capture file type, and the run prints the help and
returns 0. -/
theorem C15_invalid_option_value_fails_counterexample :
    got opt_t.F "bogus" ∈ cl_help_bogus.getopt
      ∧ invalid_option_value demoWiretap (got opt_t.F "bogus")
      ∧ (original_main demoWiretap cl_help_bogus).exit = Exit.returned 0 := by
  decide

/-- C15 (amended): a command line that holds an unknown capture file type
after `-F`, an unknown IDB merge mode after `-I` or an unknown compression
type after `--compress` never leads to a merge call; and when the option
loop gets to an unknown `-F` or `-I` value, every option before it having
been accepted, `original_main` returns 2. -/
theorem C15_invalid_option_value_fails (env : Wiretap) (cl : CommandLine) :
    ((∃ e ∈ cl.getopt, invalid_option_value env e) →
        merge_invoked (original_main env cl) = false)
      ∧ (∀ pre e post, cl.getopt = pre ++ e :: post →
          pre.all (option_accepted env) = true →
          ((e.opt = opt_t.F ∧ env.wtap_name_to_file_type_subtype e.ws_optarg < 0)
            ∨ (e.opt = opt_t.I ∧ env.merge_string_to_idb_merge_mode e.ws_optarg
                = idb_merge_mode.IDB_MERGE_MODE_MAX)) →
          (original_main env cl).exit = Exit.returned 2
            ∧ merge_invoked (original_main env cl) = false) := by
  have hpart1 : (∃ e ∈ cl.getopt, invalid_option_value env e) →
      merge_invoked (original_main env cl) = false := by
    rintro ⟨e, he, hinv⟩
    apply (original_main_stopped env cl _).1
    rw [options_completed_iff]
    intro hall
    rw [List.all_eq_true] at hall
    have := hall e he
    rw [option_accepted_of_invalid env e hinv] at this
    cases this
  refine ⟨hpart1, ?_⟩
  intro pre e post hcl hpre hbad
  refine ⟨?_, hpart1 ⟨e, by rw [hcl]; simp, ?_⟩⟩
  · obtain ⟨v1, -, happ⟩ := option_loop_append env pre (e :: post) Vars.init hpre
    unfold original_main
    rw [hcl, happ]
    obtain ⟨o, arg, oo⟩ := e
    rcases hbad with ⟨ho, hv⟩ | ⟨ho, hv⟩
    · simp only at ho hv
      subst ho
      simp [option_loop, switch_body, hv, clean_exit]
    · simp only at ho hv
      subst ho
      simp [option_loop, switch_body, hv, clean_exit]
  · rcases hbad with h | h
    · exact Or.inl h
    · exact Or.inr (Or.inl h)

/-- Witness of C15: `mergecap -a -F bogus -w out.pcapng a.pcap` returns 2
without merging. -/
theorem C15_invalid_option_value_fails_witness :
    (original_main demoWiretap cl_bogus_type).exit = Exit.returned 2
      ∧ merge_invoked (original_main demoWiretap cl_bogus_type) = false :=
  (C15_invalid_option_value_fails demoWiretap cl_bogus_type).2
    [got opt_t.a ""] (got opt_t.F "bogus") [got opt_t.w "out.pcapng"] rfl (by decide)
    (Or.inl (by decide))

/-- C16 at the failing command line: `mergecap -w out.pcapng`, without input
files, returns 1 after `wtap_init`, and neither `wtap_cleanup` nor
`free_progdirs` is called. -/
theorem C16_no_input_skips_cleanup :
    options_completed demoWiretap cl_no_input
      ∧ (original_main demoWiretap cl_no_input).exit = Exit.returned 1
      ∧ Call.wtap_init ∈ (original_main demoWiretap cl_no_input).calls
      ∧ (original_main demoWiretap cl_no_input).calls.countP Call.is_wtap_cleanup = 0
      ∧ (original_main demoWiretap cl_no_input).calls.countP Call.is_free_progdirs = 0 := by
  decide

/-! ## Facts about the modelled scheduler -/

theorem pick_next_none (inputs : List (List Record)) (h : pick_next inputs = none) :
    ∀ q ∈ inputs, q = [] := by
  induction inputs with
  | nil => simp
  | cons q rest ih =>
    cases q with
    | nil =>
      cases hp : pick_next rest with
      | none =>
        intro q' hq'
        simp only [List.mem_cons] at hq'
        rcases hq' with rfl | hq'
        · rfl
        · exact ih hp q' hq'
      | some kr => simp [pick_next, pick_step, hp] at h
    | cons hd tl =>
      cases hp : pick_next rest with
      | none => simp [pick_next, pick_step, hp] at h
      | some kr =>
        simp only [pick_next, pick_step, hp] at h
        split at h <;> cases h

/-- The chosen record is the next record of the chosen input; no next record
of any input is earlier, and those of the inputs with a lower index are
strictly later. -/
theorem pick_next_some (inputs : List (List Record)) (i : Nat) (r : Record)
    (h : pick_next inputs = some (i, r)) :
    (∃ tl, inputs[i]? = some (r :: tl))
      ∧ ∀ k hd tl, inputs[k]? = some (hd :: tl) → r.ts ≤ hd.ts ∧ (k < i → r.ts < hd.ts) := by
  induction inputs generalizing i r with
  | nil => simp [pick_next] at h
  | cons q rest ih =>
    cases q with
    | nil =>
      cases hp : pick_next rest with
      | none => simp [pick_next, pick_step, hp] at h
      | some kr =>
        obtain ⟨k0, r0⟩ := kr
        simp only [pick_next, pick_step, hp, Option.some.injEq, Prod.mk.injEq] at h
        obtain ⟨rfl, rfl⟩ := h
        obtain ⟨⟨tl, htl⟩, hmin⟩ := ih k0 r0 hp
        refine ⟨⟨tl, by simpa using htl⟩, ?_⟩
        intro k hd tl' hk
        cases k with
        | zero => simp at hk
        | succ k' =>
          have := hmin k' hd tl' (by simpa using hk)
          exact ⟨this.1, fun hlt => this.2 (by omega)⟩
    | cons h0 t0 =>
      cases hp : pick_next rest with
      | none =>
        simp only [pick_next, pick_step, hp, Option.some.injEq, Prod.mk.injEq] at h
        obtain ⟨rfl, rfl⟩ := h
        refine ⟨⟨t0, by simp⟩, ?_⟩
        intro k hd tl' hk
        cases k with
        | zero =>
          simp only [List.getElem?_cons_zero, Option.some.injEq, List.cons.injEq] at hk
          rw [← hk.1]
          exact ⟨le_refl _, fun hlt => absurd hlt (by omega)⟩
        | succ k' =>
          simp only [List.getElem?_cons_succ] at hk
          have hmem : (hd :: tl') ∈ rest := List.getElem?_mem hk
          have := pick_next_none rest hp _ hmem
          cases this
      | some kr =>
        obtain ⟨k0, r0⟩ := kr
        obtain ⟨⟨tl, htl⟩, hmin⟩ := ih k0 r0 hp
        simp only [pick_next, pick_step, hp] at h
        by_cases hle : h0.ts ≤ r0.ts
        · rw [if_pos hle] at h
          simp only [Option.some.injEq, Prod.mk.injEq] at h
          obtain ⟨rfl, rfl⟩ := h
          refine ⟨⟨t0, by simp⟩, ?_⟩
          intro k hd tl' hk
          cases k with
          | zero =>
            simp only [List.getElem?_cons_zero, Option.some.injEq, List.cons.injEq] at hk
            rw [← hk.1]
            exact ⟨le_refl _, fun hlt => absurd hlt (by omega)⟩
          | succ k' =>
            simp only [List.getElem?_cons_succ] at hk
            have := (hmin k' hd tl' hk).1
            exact ⟨by omega, fun hlt => absurd hlt (by omega)⟩
        · rw [if_neg hle] at h
          simp only [Option.some.injEq, Prod.mk.injEq] at h
          obtain ⟨rfl, rfl⟩ := h
          refine ⟨⟨tl, by simpa using htl⟩, ?_⟩
          intro k hd tl' hk
          cases k with
          | zero =>
            simp only [List.getElem?_cons_zero, Option.some.injEq, List.cons.injEq] at hk
            rw [← hk.1]
            exact ⟨by omega, fun _ => by omega⟩
          | succ k' =>
            simp only [List.getElem?_cons_succ] at hk
            have := hmin k' hd tl' hk
            exact ⟨this.1, fun hlt => this.2 (by omega)⟩

theorem advance_getElem? (inputs : List (List Record)) (i k : Nat) :
    (advance inputs i)[k]?
      = if k = i then (inputs[i]?).map List.tail else inputs[k]? := by
  induction inputs generalizing i k with
  | nil => simp [advance]
  | cons q rest ih =>
    cases i with
    | zero =>
      cases k with
      | zero => simp [advance]
      | succ k' => simp [advance]
    | succ i' =>
      cases k with
      | zero => simp [advance]
      | succ k' =>
        simp only [advance, List.getElem?_cons_succ, ih i' k']
        simp

theorem total_records_advance (inputs : List (List Record)) (i : Nat) (r : Record)
    (tl : List Record) (h : inputs[i]? = some (r :: tl)) :
    total_records (advance inputs i) + 1 = total_records inputs := by
  induction inputs generalizing i with
  | nil => simp at h
  | cons q rest ih =>
    cases i with
    | zero =>
      simp only [List.getElem?_cons_zero, Option.some.injEq] at h
      subst h
      simp [advance, total_records]
      omega
    | succ i' =>
      simp only [List.getElem?_cons_succ] at h
      have := ih i' h
      simp only [total_records] at this
      simp only [advance, total_records, List.map_cons, List.sum_cons]
      omega

/-- Every emitted record is a record of the input it is emitted for. -/
theorem merge_steps_mem (n : Nat) (inputs : List (List Record)) (k : Nat) (x : Record)
    (h : (k, x) ∈ merge_steps n inputs) : record_of inputs k x := by
  induction n generalizing inputs with
  | zero => simp [merge_steps] at h
  | succ n ih =>
    simp only [merge_steps] at h
    cases hp : pick_next inputs with
    | none => simp [hp] at h
    | some ir =>
      obtain ⟨i, r⟩ := ir
      simp only [hp, List.mem_cons, Prod.mk.injEq] at h
      obtain ⟨⟨tl, htl⟩, -⟩ := pick_next_some inputs i r hp
      rcases h with ⟨rfl, rfl⟩ | h
      · exact ⟨x :: tl, htl, List.mem_cons_self _ _⟩
      · obtain ⟨q', hq', hx⟩ := ih (advance inputs i) h
        rw [advance_getElem?] at hq'
        by_cases hki : k = i
        · subst hki
          rw [if_pos rfl, htl] at hq'
          simp only [Option.map_some', List.tail_cons, Option.some.injEq] at hq'
          subst hq'
          exact ⟨r :: tl, htl, List.mem_cons_of_mem _ hx⟩
        · rw [if_neg hki] at hq'
          exact ⟨q', hq', hx⟩

/-- After a step on non-decreasing inputs no remaining record is earlier than
the emitted one, and those of the inputs with a lower index are later. -/
theorem advance_lower_bound (inputs : List (List Record)) (i : Nat) (r : Record)
    (hsorted : ∀ q ∈ inputs, non_decreasing q) (hp : pick_next inputs = some (i, r))
    (k : Nat) (x : Record) (hx : record_of (advance inputs i) k x) :
    r.ts ≤ x.ts ∧ (k < i → r.ts < x.ts) := by
  obtain ⟨⟨tl, htl⟩, hmin⟩ := pick_next_some inputs i r hp
  obtain ⟨q', hq', hxq⟩ := hx
  rw [advance_getElem?] at hq'
  by_cases hki : k = i
  · subst hki
    rw [if_pos rfl, htl] at hq'
    simp only [Option.map_some', List.tail_cons, Option.some.injEq] at hq'
    subst hq'
    have hs := hsorted (r :: tl) (List.getElem?_mem htl)
    unfold non_decreasing at hs
    rw [List.pairwise_cons] at hs
    exact ⟨hs.1 x hxq, fun hlt => absurd hlt (by omega)⟩
  · rw [if_neg hki] at hq'
    cases q' with
    | nil => cases hxq
    | cons hd tl' =>
      have hhd := hmin k hd tl' hq'
      have hs := hsorted (hd :: tl') (List.getElem?_mem hq')
      unfold non_decreasing at hs
      rw [List.pairwise_cons] at hs
      simp only [List.mem_cons] at hxq
      rcases hxq with rfl | hxq
      · exact hhd
      · have := hs.1 x hxq
        exact ⟨by omega, fun hlt => by have := hhd.2 hlt; omega⟩

theorem advance_non_decreasing (inputs : List (List Record)) (i : Nat)
    (hsorted : ∀ q ∈ inputs, non_decreasing q) :
    ∀ q ∈ advance inputs i, non_decreasing q := by
  intro q hq
  obtain ⟨k, hk⟩ := List.mem_iff_getElem?.mp hq
  rw [advance_getElem?] at hk
  by_cases hki : k = i
  · rw [if_pos hki] at hk
    cases hq0 : inputs[i]? with
    | none => rw [hq0] at hk; cases hk
    | some q0 =>
      rw [hq0] at hk
      simp only [Option.map_some', Option.some.injEq] at hk
      subst hk
      have := hsorted q0 (List.getElem?_mem hq0)
      unfold non_decreasing at this ⊢
      cases q0 with
      | nil => simp
      | cons a as => exact (List.pairwise_cons.mp this).2
  · rw [if_neg hki] at hk
    exact hsorted q (List.getElem?_mem hk)

/-- On non-decreasing inputs the emitted records are non-decreasing in
timestamp, and on equal timestamps the input indices are non-decreasing. -/
theorem merge_steps_pairwise (n : Nat) (inputs : List (List Record))
    (hsorted : ∀ q ∈ inputs, non_decreasing q) :
    (merge_steps n inputs).Pairwise
      (fun a b => a.2.ts ≤ b.2.ts ∧ (a.2.ts = b.2.ts → a.1 ≤ b.1)) := by
  induction n generalizing inputs with
  | zero => simp [merge_steps]
  | succ n ih =>
    simp only [merge_steps]
    cases hp : pick_next inputs with
    | none => simp
    | some ir =>
      obtain ⟨i, r⟩ := ir
      simp only
      rw [List.pairwise_cons]
      refine ⟨?_, ih (advance inputs i) (advance_non_decreasing inputs i hsorted)⟩
      rintro ⟨k, x⟩ hkx
      have hrec := merge_steps_mem n (advance inputs i) k x hkx
      have hlb := advance_lower_bound inputs i r hsorted hp k x hrec
      refine ⟨hlb.1, fun heq => ?_⟩
      by_contra hlt
      have := hlb.2 (by omega)
      simp only at heq
      omega

theorem total_records_of_pick_none (inputs : List (List Record))
    (h : pick_next inputs = none) : total_records inputs = 0 := by
  have hall := pick_next_none inputs h
  unfold total_records
  apply List.sum_eq_zero
  intro n hn
  obtain ⟨q, hq, rfl⟩ := List.mem_map.mp hn
  rw [hall q hq]
  rfl

/-- With as many steps as there are records, every record is emitted. -/
theorem merge_steps_length (n : Nat) (inputs : List (List Record))
    (h : total_records inputs = n) : (merge_steps n inputs).length = n := by
  induction n generalizing inputs with
  | zero => simp [merge_steps]
  | succ n ih =>
    simp only [merge_steps]
    cases hp : pick_next inputs with
    | none =>
      have := total_records_of_pick_none inputs hp
      omega
    | some ir =>
      obtain ⟨i, r⟩ := ir
      obtain ⟨⟨tl, htl⟩, -⟩ := pick_next_some inputs i r hp
      have ht := total_records_advance inputs i r tl htl
      simp only [List.length_cons]
      rw [ih (advance inputs i) (by omega)]

/-- C14: in timestamp-merge mode, the scheduler as the specification
describes it emits every record, and whenever every input is internally
non-decreasing in timestamp, the output is non-decreasing in timestamp and
records with equal timestamps from different inputs appear in the order of
their input indices, the record of input 0 before that of input 1. -/
theorem C14_timestamp_merge_order (inputs : List (List Record))
    (hsorted : ∀ q ∈ inputs, non_decreasing q) :
    (timestamp_merge inputs).length = total_records inputs
      ∧ (∀ k x, (k, x) ∈ timestamp_merge inputs → record_of inputs k x)
      ∧ (timestamp_merge inputs).Pairwise (fun a b => a.2.ts ≤ b.2.ts)
      ∧ (timestamp_merge inputs).Pairwise (fun a b => a.2.ts = b.2.ts → a.1 ≤ b.1) := by
  have hpw := merge_steps_pairwise (total_records inputs) inputs hsorted
  refine ⟨merge_steps_length _ inputs rfl, fun k x h => merge_steps_mem _ inputs k x h, ?_, ?_⟩
  · exact hpw.imp (fun h => h.1)
  · exact hpw.imp (fun h => h.2)

/-- Witness of C14: the scenario of section 8, inputs A at 1, 3, 5 and B at
2, 4, gives the order A, B, A, B, A with all five records. -/
theorem C14_timestamp_merge_order_witness :
    (timestamp_merge demo_inputs).map (fun a => (a.1, a.2.ts))
        = [(0, 1), (1, 2), (0, 3), (1, 4), (0, 5)]
      ∧ (timestamp_merge demo_inputs).length = total_records demo_inputs :=
  ⟨by decide,
   (C14_timestamp_merge_order demo_inputs (by
      intro q hq
      simp only [demo_inputs, List.mem_cons, List.mem_singleton, List.mem_nil_iff,
        or_false] at hq
      rcases hq with rfl | rfl <;> simp [non_decreasing])).1⟩

/-! ## Cleanup on the returning paths -/

theorem switch_body_no_cleanup (env : Wiretap) (e : getopt_result) (v0 : Vars) :
    ∀ c ∈ (switch_body env e v0).2.2,
      Call.is_wtap_cleanup c = false ∧ Call.is_free_progdirs c = false := by
  obtain ⟨o, arg, oo⟩ := e
  cases o <;> simp only [switch_body]
  case F => split <;> simp [Call.is_wtap_cleanup, Call.is_free_progdirs]
  case I => split <;> simp [Call.is_wtap_cleanup, Call.is_free_progdirs]
  case LONGOPT_COMPRESS => split <;> simp [Call.is_wtap_cleanup, Call.is_free_progdirs]
  case s => split <;> simp
  case bad => cases oo <;> simp [Call.is_wtap_cleanup, Call.is_free_progdirs]
  all_goals simp [Call.is_wtap_cleanup, Call.is_free_progdirs]

theorem option_loop_no_cleanup (env : Wiretap) (es : List getopt_result) (v0 : Vars) :
    ∀ c ∈ (option_loop env es v0).2.2,
      Call.is_wtap_cleanup c = false ∧ Call.is_free_progdirs c = false := by
  induction es generalizing v0 with
  | nil => simp [option_loop]
  | cons e es ih =>
    have hs := switch_body_no_cleanup env e v0
    simp only [option_loop]
    rcases hsb : switch_body env e v0 with ⟨f1, v1, t1⟩
    rw [hsb] at hs
    cases f1 with
    | next =>
      intro c hc
      simp only [List.mem_append] at hc
      rcases hc with hc | hc
      · exact hs c hc
      · exact ih v1 c hc
    | clean_exit => exact hs
    | exit c => exact hs

theorem clean_exit_cleanup (status : Bool) (calls : List Call)
    (h : ∀ c ∈ calls, Call.is_wtap_cleanup c = false ∧ Call.is_free_progdirs c = false) :
    ((clean_exit status calls).exit = Exit.returned 0
        ∨ (clean_exit status calls).exit = Exit.returned 2)
      ∧ (clean_exit status calls).calls.countP Call.is_wtap_cleanup = 1
      ∧ (clean_exit status calls).calls.countP Call.is_free_progdirs = 1 := by
  have h1 : calls.countP Call.is_wtap_cleanup = 0 := by
    rw [List.countP_eq_zero]
    intro c hc
    simp [(h c hc).1]
  have h2 : calls.countP Call.is_free_progdirs = 0 := by
    rw [List.countP_eq_zero]
    intro c hc
    simp [(h c hc).2]
  refine ⟨?_, ?_, ?_⟩
  · cases status <;> simp [clean_exit]
  · simp [clean_exit, List.countP_append, h1, List.countP_cons, Call.is_wtap_cleanup]
  · simp [clean_exit, List.countP_append, h2, List.countP_cons, Call.is_free_progdirs]

/-- Every path of `original_main` that returns goes through `clean_exit`,
with one call of `wtap_cleanup` and one of `free_progdirs` and the status 0
or 2, except the path for a command line with `-w` and no input file. -/
theorem original_main_cleanup (env : Wiretap) (cl : CommandLine)
    (hpath : ¬ (options_completed env cl ∧ opt_given opt_t.w cl.getopt = true
        ∧ input_count cl < 1))
    (status : Int) (hret : (original_main env cl).exit = Exit.returned status) :
    (status = 0 ∨ status = 2)
      ∧ (original_main env cl).calls.countP Call.is_wtap_cleanup = 1
      ∧ (original_main env cl).calls.countP Call.is_free_progdirs = 1 := by
  have key : ((original_main env cl).exit = Exit.returned 0
        ∨ (original_main env cl).exit = Exit.returned 2)
      ∧ (original_main env cl).calls.countP Call.is_wtap_cleanup = 1
      ∧ (original_main env cl).calls.countP Call.is_free_progdirs = 1 := by
    by_cases hdone : options_completed env cl
    · rw [original_main_completed env cl hdone]
      cases hw : last_optarg opt_t.w cl.getopt with
      | none =>
        exact clean_exit_cleanup _ _ (by simp [Call.is_wtap_cleanup, Call.is_free_progdirs])
      | some out =>
        have hg : opt_given opt_t.w cl.getopt = true := by
          by_contra hng
          rw [(last_optarg_none_iff _ _).mpr (by simpa using hng)] at hw
          cases hw
        have hin : ¬ input_count cl < 1 := fun hlt => hpath ⟨hdone, hg, hlt⟩
        simp only [hin, if_false]
        split
        · exact clean_exit_cleanup _ _ (by simp [Call.is_wtap_cleanup, Call.is_free_progdirs])
        · split
          · exact clean_exit_cleanup _ _
              (by simp [Call.is_wtap_cleanup, Call.is_free_progdirs])
          · split
            · exact clean_exit_cleanup _ _
                (by simp [Call.is_wtap_cleanup, Call.is_free_progdirs])
            · split
              · exact clean_exit_cleanup _ _
                  (by simp [Call.is_wtap_cleanup, Call.is_free_progdirs])
              · exact clean_exit_cleanup _ _
                  (by simp [Call.is_wtap_cleanup, Call.is_free_progdirs])
    · unfold options_completed at hdone
      have hnc := option_loop_no_cleanup env cl.getopt Vars.init
      unfold original_main at hret ⊢
      rcases hl : option_loop env cl.getopt Vars.init with ⟨f, v, t⟩
      rw [hl] at hdone hnc hret
      simp only at hdone hnc hret
      cases f with
      | next => exact absurd rfl hdone
      | clean_exit =>
        simp only
        apply clean_exit_cleanup
        intro c hc
        simp only [List.mem_cons] at hc
        rcases hc with rfl | hc
        · simp [Call.is_wtap_cleanup, Call.is_free_progdirs]
        · exact hnc c hc
      | exit n => simp at hret
  refine ⟨?_, key.2⟩
  rcases key.1 with h0 | h2
  · rw [h0] at hret
    simp only [Exit.returned.injEq] at hret
    exact Or.inl hret.symm
  · rw [h2] at hret
    simp only [Exit.returned.injEq] at hret
    exact Or.inr hret.symm

end Mergecap
